import Mathlib

/-!
Verification model of archive-docker.py, the build-matrix driver of the
alt-chill/archive-docker repository.

Every definition below is a shallow embedding of the corresponding Python
function.  External effects (subprocess invocations, file writes and
directory creation) are recorded as events; Python exceptions are
modelled by an error component that truncates the event trace, mirroring
the fact that the script installs no exception handler anywhere.  Exit
statuses of external tools are modelled separately, by executing a
recorded event list under an assignment of statuses to commands
(`execCmds`): a nonzero status of a command run with check=True raises
CalledProcessError there, any other command merely records its status.
-/

set_option maxHeartbeats 1000000
set_option maxRecDepth 100000

namespace ArchiveDocker

/-- Exceptions the script can raise while computing the arguments of
external calls: KeyError from an ARCH_MAP lookup, ValueError from
datetime.date.fromisoformat, TypeError from iterating a missing (None)
dates argument. -/
inductive Err where
  | keyError (key : String)
  | valueError (s : String)
  | typeError
deriving DecidableEq, Repr

/-- One subprocess.run invocation.  `check` records the check=True
keyword argument, `devnull` records that stdout and stderr were sent to
subprocess.DEVNULL, `cwd` the cwd keyword, `input` the input keyword. -/
structure Cmd where
  argv : List String
  check : Bool := false
  devnull : Bool := false
  cwd : Option String := none
  input : Option String := none
deriving DecidableEq, Repr

/-- Observable effects of the script: a file write (Path.write_text), a
directory creation (Path.mkdir) or an external command (subprocess.run). -/
inductive Ev where
  | write (path text : String)
  | mkdir (path : String)
  | run (c : Cmd)
deriving DecidableEq, Repr

/-- A computation of the script: the events it performs, and the
uncaught exception that aborted it, if any. -/
abbrev Tr := List Ev × Option Err

def pureT : Tr := ([], none)

def emit (e : Ev) : Tr := ([e], none)

def fail (e : Err) : Tr := ([], some e)

/-- Sequential composition: an uncaught exception in the first
computation skips the second one entirely. -/
def seq (a b : Tr) : Tr :=
  match a.2 with
  | none => (a.1 ++ b.1, b.2)
  | some _ => a

def seqList : List Tr → Tr
  | [] => pureT
  | t :: ts => seq t (seqList ts)

/-- Execution of a recorded event list under an assignment of exit
statuses to commands: a command run with check=True and a nonzero status
raises CalledProcessError and stops the run (Boolean false); everything
else continues. -/
def execCmds (env : List String → Nat) : List Ev → List Ev × Bool
  | [] => ([], true)
  | Ev.run c :: rest =>
    if c.check ∧ env c.argv ≠ 0 then ([Ev.run c], false)
    else (Ev.run c :: (execCmds env rest).1, (execCmds env rest).2)
  | e :: rest => (e :: (execCmds env rest).1, (execCmds env rest).2)

/-! ### Static configuration (lines 10 to 20 of the source)

APT_CONF and SOURCE_LIST are the absolute paths of apt.conf and
source.list under the working directory of the process; the model keeps
all paths relative to that directory, which no claim inspects. -/

def APT_CONF : String := "apt.conf"

def SOURCE_LIST : String := "source.list"

def INTERNAL_CONTAINER : String := "archive-docker"

/-- The static architecture table ARCH_MAP; a lookup of a key outside the
table raises KeyError. -/
def ARCH_MAP : String → Option String
  | "amd64" => some "x86_64"
  | "386" => some "i586"
  | "arm64" => some "aarch64"
  | "arm" => some "armh"
  | "ppc64le" => some "ppc64le"
  | _ => none

/-! ### Date handling (apt_date, line 23) -/

/-- The character of a decimal digit; only ever applied to values below
ten. -/
def digitChar (n : Nat) : Char :=
  match n with
  | 0 => '0'
  | 1 => '1'
  | 2 => '2'
  | 3 => '3'
  | 4 => '4'
  | 5 => '5'
  | 6 => '6'
  | 7 => '7'
  | 8 => '8'
  | 9 => '9'
  | _ => '0'

/-- Decimal digits of n, most significant first.  The first argument is
fuel bounding the recursion; n + 1 units are always sufficient. -/
def natDigits : Nat → Nat → List Char
  | 0, _ => []
  | fuel + 1, n =>
    if n < 10 then [digitChar n] else natDigits fuel (n / 10) ++ [digitChar (n % 10)]

/-- Decimal notation of a natural number, as the C library prints a year
with the strftime directive %Y (no padding). -/
def natStr (n : Nat) : String := String.mk (natDigits (n + 1) n)

/-- Zero padded to two digits, as the strftime directives %m and %d print
months and days. -/
def pad2 (n : Nat) : String := if n < 10 then "0" ++ natStr n else natStr n

def digitVal (c : Char) : Nat := c.toNat - 48

def leapYear (y : Nat) : Bool := y % 4 == 0 && (y % 100 != 0 || y % 400 == 0)

def daysInMonth (y m : Nat) : Nat :=
  if m = 2 then (if leapYear y then 29 else 28)
  else if m = 4 ∨ m = 6 ∨ m = 9 ∨ m = 11 then 30
  else 31

/-- datetime.date.fromisoformat restricted to the plain YYYY-MM-DD form,
the only form accepted by every Python 3 version: four digits, a dash,
two digits, a dash, two digits, with calendar validity and year at least
one.  Returns none where Python raises ValueError. -/
def parseIso (s : String) : Option (Nat × Nat × Nat) :=
  match s.data with
  | [y1, y2, y3, y4, '-', m1, m2, '-', d1, d2] =>
    if y1.isDigit && y2.isDigit && y3.isDigit && y4.isDigit &&
       m1.isDigit && m2.isDigit && d1.isDigit && d2.isDigit then
      let y := ((digitVal y1 * 10 + digitVal y2) * 10 + digitVal y3) * 10 + digitVal y4
      let m := digitVal m1 * 10 + digitVal m2
      let d := digitVal d1 * 10 + digitVal d2
      if 1 ≤ y ∧ 1 ≤ m ∧ m ≤ 12 ∧ 1 ≤ d ∧ d ≤ daysInMonth y m then some (y, m, d) else none
    else none
  | _ => none

/-- apt_date: parse the ISO date and reprint it with strftime %Y/%m/%d. -/
def apt_date (s : String) : Option String :=
  (parseIso s).map (fun t => natStr t.1 ++ "/" ++ pad2 t.2.1 ++ "/" ++ pad2 t.2.2)

/-! ### generate_source_list (line 27) -/

def repoRoot : String := "http://ftp.altlinux.org/pub/distributions/archive"

/-- One line of the generated source list. -/
def srcLine (branch fdate aid : String) : String :=
  "rpm " ++ repoRoot ++ "/" ++ branch ++ "/date/" ++ fdate ++ " " ++ aid ++ " classic"

/-- generate_source_list.  The ValueError from apt_date precedes the
KeyError from the ARCH_MAP lookup, as in the source; the template body
after lstrip is the first line, a newline, the noarch line and a final
newline. -/
def generate_source_list (arch branch date : String) : Except Err String :=
  match apt_date date with
  | none => Except.error (Err.valueError date)
  | some fdate =>
    match ARCH_MAP arch with
    | none => Except.error (Err.keyError arch)
    | some aid =>
      Except.ok (srcLine branch fdate aid ++ "\n" ++ srcLine branch fdate "noarch" ++ "\n")

/-! ### create_apt_files, make, build_tarball (lines 36 to 70) -/

/-- The apt.conf body written by create_apt_files (lstrip removes the
leading newline of the template). -/
def aptConfText : String :=
  "Dir::Etc::main \"/dev/null\";\n" ++
  "Dir::Etc::parts \"/var/empty\";\n" ++
  "Dir::Etc::SourceList \"" ++ SOURCE_LIST ++ "\";\n" ++
  "Dir::Etc::SourceParts \"/var/empty\";\n" ++
  "Dir::Etc::preferences \"/dev/null\";\n" ++
  "Dir::Etc::preferencesparts \"/var/empty\";\n"

/-- create_apt_files writes apt.conf, then computes the source list
(which may raise) and writes it to source.list. -/
def create_apt_files (arch branch date : String) : Tr :=
  seq (emit (Ev.write APT_CONF aptConfText))
    (match generate_source_list arch branch date with
     | Except.error e => fail e
     | Except.ok t => emit (Ev.write SOURCE_LIST t))

/-- make: the bootstrapper invocation, the only buildah or make call of
the script carrying check=True besides the test stage. -/
def make (arch branch outDir mpd : String) : Tr :=
  match ARCH_MAP arch with
  | none => fail (Err.keyError arch)
  | some aid =>
    emit (Ev.run
      { argv := ["make", "APTCONF=" ++ APT_CONF, "ARCH=" ++ aid, "BRANCH=" ++ branch,
                 "IMAGE_OUTDIR=" ++ outDir, "IMAGE_OUTFILE=alt.tar.xz", "ve/docker.tar.xz"],
        check := true, cwd := some mpd })

/-- build_tarball: write the apt files, create the per-architecture
output directory (named after the architecture) and run make. -/
def build_tarball (arch branch date mpd : String) : Tr :=
  seq (create_apt_files arch branch date)
    (seq (emit (Ev.mkdir arch)) (make arch branch arch mpd))

/-! ### Best-effort removals (lines 73 to 111) -/

def remove_manifest (nm : String) : Tr :=
  emit (Ev.run { argv := ["buildah", "manifest", "rm", nm], check := false, devnull := true })

def remove_image (nm : String) : Tr :=
  emit (Ev.run { argv := ["buildah", "image", "rm", nm], check := false, devnull := true })

def remove_container (nm : String) : Tr :=
  emit (Ev.run { argv := ["buildah", "rm", nm], check := false, devnull := true })

/-! ### buildah_build (line 114) -/

def containerOf (arch : String) : String := INTERNAL_CONTAINER ++ "-" ++ arch

/-- run_command_in_container: buildah run with the given command; the
only keyword ever passed through is input. -/
def runInContainer (container : String) (cmd : List String) (inp : Option String) : Ev :=
  Ev.run { argv := ["buildah", "run", container] ++ cmd, input := inp }

def rmCaches : String :=
  "rm -f /var/cache/apt/archives/*.rpm /var/cache/apt/*.bin /var/lib/apt/lists/*.*"

/-- buildah_build.  None of these subprocess.run calls passes check=True;
the source list for the in-container file is computed (and can raise)
before the corresponding buildah run call is issued. -/
def buildah_build (arch branch date manifest image : String) (packages : List String) : Tr :=
  seq (remove_image image)
  (seq (remove_container (containerOf arch))
  (seq (emit (Ev.run { argv := ["buildah", "from", "--arch", arch, "--name", containerOf arch, "scratch"] }))
  (seq (emit (Ev.run { argv := ["buildah", "add", containerOf arch, "alt.tar.xz", "/"], cwd := some arch }))
  (seq (emit (runInContainer (containerOf arch) ["sh", "-c", "true > /etc/security/limits.d/50-defaults.conf"] none))
  (seq (match generate_source_list arch branch date with
        | Except.error e => fail e
        | Except.ok t =>
          emit (runInContainer (containerOf arch) ["sh", "-c", "cat > /etc/apt/sources.list.d/alt.list"] (some t)))
  (seq (if packages.isEmpty then pureT
        else
          seq (emit (runInContainer (containerOf arch) ["apt-get", "update"] none))
          (seq (emit (runInContainer (containerOf arch) (["apt-get", "install", "-y"] ++ packages) none))
               (emit (runInContainer (containerOf arch) ["sh", "-c", rmCaches] none))))
  (seq (emit (Ev.run { argv := ["buildah", "config", "--cmd", "[\"/bin/bash\"]", containerOf arch] }))
       (emit (Ev.run { argv := ["buildah", "commit", "--rm", "--manifest", manifest, containerOf arch, image] })))))))))

/-! ### test (line 193) -/

/-- The test stage: the commands list is built first (so the ARCH_MAP
lookup and the date parse happen before any podman call of the stage),
then each command is run with check=True. -/
def test (arch branch date image : String) : Tr :=
  match ARCH_MAP arch with
  | none => fail (Err.keyError arch)
  | some aid =>
    match apt_date date with
    | none => fail (Err.valueError date)
    | some fdate =>
      seq (emit (Ev.run { argv := ["podman", "run", "--rm", image, "grep", "-q", branch, "/etc/apt/sources.list.d/alt.list"], check := true }))
      (seq (emit (Ev.run { argv := ["podman", "run", "--rm", image, "grep", "-q", aid, "/etc/apt/sources.list.d/alt.list"], check := true }))
      (seq (emit (Ev.run { argv := ["podman", "run", "--rm", image, "grep", "-q", fdate, "/etc/apt/sources.list.d/alt.list"], check := true }))
           (emit (Ev.run { argv := ["podman", "run", "--rm", image, "sh", "-c", "apt-get update && apt-get install -y ncdu"], check := true }))))

/-! ### podman_push (line 208) and clean (line 249) -/

/-- podman_push: note the absence of check=True. -/
def podman_push (image : String) : Tr :=
  emit (Ev.run { argv := ["podman", "manifest", "push", image, "docker://" ++ image] })

def clean : Tr :=
  emit (Ev.run { argv := ["podman", "system", "prune", "-af"] })

/-! ### The matrix driver (build_all, line 220, and main, line 353)

The nested loops of build_all are factored through a stage-event
skeleton: buildAllS lists, in source order, which stage function is
called on which arguments, and stageDenote maps each stage event to the
stage function defined above.  Sequencing the denotations of the
skeleton is exactly the nested iteration of the source, because seq is
associative. -/

def repoOf (registry organization : String) : String := registry ++ "/" ++ organization

def manifestName (repo nm branch date : String) : String :=
  repo ++ "/" ++ nm ++ ":" ++ branch ++ "-" ++ date

def imageName (repo nm branch date arch : String) : String :=
  repo ++ "/" ++ nm ++ ":" ++ branch ++ "-" ++ date ++ "-" ++ arch

/-- Stage events: one constructor per stage-function call site in
build_all and main. -/
inductive SEv where
  | removeManifest (branch date : String)
  | buildTarball (arch branch date : String)
  | buildImage (arch branch date : String)
  | testStage (arch branch date : String)
  | pushStage (branch date : String)
  | cleanStage
deriving DecidableEq, Repr

/-- The body of the architecture loop of build_all (lines 237 to 244):
each requested per-cell stage in source order. -/
def cellS (stages : List String) (arch branch date : String) : List SEv :=
  (if "build_tarball" ∈ stages then [SEv.buildTarball arch branch date] else [])
    ++ (if "build_image" ∈ stages then [SEv.buildImage arch branch date] else [])
    ++ (if "test" ∈ stages then [SEv.testStage arch branch date] else [])

/-- The body of the date loop of build_all (lines 234 to 246): manifest
removal when build_image is requested, then the architecture loop, then
the per (branch, date) push when requested. -/
def blockS (stages arches : List String) (branch date : String) : List SEv :=
  (if "build_image" ∈ stages then [SEv.removeManifest branch date] else [])
    ++ arches.flatMap (fun arch => cellS stages arch branch date)
    ++ (if "push" ∈ stages then [SEv.pushStage branch date] else [])

/-- The loop nest of build_all: branches, then dates. -/
def buildAllS (arches branches dates stages : List String) : List SEv :=
  branches.flatMap (fun branch => dates.flatMap (fun date => blockS stages arches branch date))

/-- The stage skeleton of a whole run of main: build_all, then clean if
requested. -/
def mainS (arches branches dates stages : List String) : List SEv :=
  buildAllS arches branches dates stages ++ (if "clean" ∈ stages then [SEv.cleanStage] else [])

/-- Denotation of a stage event: precisely the call build_all or main
performs for it. -/
def stageDenote (repo nm mpd : String) (packages : List String) : SEv → Tr
  | SEv.removeManifest b d => remove_manifest (manifestName repo nm b d)
  | SEv.buildTarball a b d => build_tarball a b d mpd
  | SEv.buildImage a b d => buildah_build a b d (manifestName repo nm b d) (imageName repo nm b d a) packages
  | SEv.testStage a b d => test a b d (imageName repo nm b d a)
  | SEv.pushStage b d => podman_push (manifestName repo nm b d)
  | SEv.cleanStage => clean

/-- build_all.  A missing dates argument is modelled by dates = none:
iterating None raises TypeError at the first branch iteration, before
anything else happens; with no branches the loop body never runs. -/
def build_all (arches branches : List String) (dates : Option (List String))
    (mpd registry organization nm : String) (stages packages : List String) : Tr :=
  match dates with
  | some ds =>
    seqList ((buildAllS arches branches ds stages).map
      (stageDenote (repoOf registry organization) nm mpd packages))
  | none =>
    match branches with
    | [] => pureT
    | _ :: _ => fail Err.typeError

/-- main: build_all, then clean when requested (the clean call is
skipped when build_all raised, since the exception propagates). -/
def main (arches branches : List String) (dates : Option (List String))
    (mpd registry organization nm : String) (stages packages : List String) : Tr :=
  seq (build_all arches branches dates mpd registry organization nm stages packages)
      (if "clean" ∈ stages then clean else pureT)

/-! ### The CLI surface (parse_args, line 260) -/

def allArches : List String := ["amd64", "386", "arm64", "arm", "ppc64le"]

def defaultArches : List String := ["amd64", "arm64"]

def allBranches : List String := ["p9", "p10", "sisyphus"]

def defaultBranches : List String := ["p10", "sisyphus"]

/-- The stages vocabulary in the order of line 261 of the source. -/
def allStages : List String := ["build_tarball", "build_image", "push", "clean", "test"]

/-- The effective-set computation of parse_args (lines 346 to 348):
Python set difference of the selected and the skip list. -/
def setDiff (sel skip : List String) : Finset String := sel.toFinset \ skip.toFinset

/-- argparse acceptance of the six list options: every element must be
among the declared choices.  The skip-branches option declares choices
equal to the architecture list (line 322 of the source). -/
def acceptedArgs (arches skipArches branches skipBranches stages skipStages : List String) : Prop :=
  (∀ x ∈ arches, x ∈ allArches) ∧ (∀ x ∈ skipArches, x ∈ allArches) ∧
  (∀ x ∈ branches, x ∈ allBranches) ∧ (∀ x ∈ skipBranches, x ∈ allArches) ∧
  (∀ x ∈ stages, x ∈ allStages) ∧ (∀ x ∈ skipStages, x ∈ allStages)

/-! ### Algebra of traces -/

theorem seq_none {a : Tr} (b : Tr) (h : a.2 = none) : seq a b = (a.1 ++ b.1, b.2) := by
  simp [seq, h]

theorem seq_err {a : Tr} (b : Tr) {e : Err} (h : a.2 = some e) : seq a b = a := by
  simp [seq, h]

theorem seq_pure_left (b : Tr) : seq pureT b = b := rfl

theorem seq_pure_right (a : Tr) : seq a pureT = a := by
  rcases a with ⟨ea, oa⟩
  cases oa <;> simp [seq, pureT]

theorem seq_assoc (a b c : Tr) : seq (seq a b) c = seq a (seq b c) := by
  rcases a with ⟨ea, oa⟩
  rcases b with ⟨eb, ob⟩
  cases oa <;> cases ob <;> simp [seq, List.append_assoc]

theorem seqList_append (l₁ l₂ : List Tr) :
    seqList (l₁ ++ l₂) = seq (seqList l₁) (seqList l₂) := by
  induction l₁ with
  | nil => simp [seqList, seq_pure_left]
  | cons t ts ih => simp [seqList, ih, seq_assoc]

theorem seq_isSome_left {a : Tr} (b : Tr) (h : a.2.isSome) : (seq a b).2.isSome := by
  rcases a with ⟨ea, oa⟩
  cases oa with
  | none => simp at h
  | some e => simp [seq]

theorem seq_isSome_right (a : Tr) {b : Tr} (h : b.2.isSome) : (seq a b).2.isSome := by
  rcases a with ⟨ea, oa⟩
  cases oa with
  | none => simpa [seq] using h
  | some e => simp [seq]

theorem seqList_isSome_of_mem {l : List Tr} {t : Tr} (ht : t ∈ l) (h : t.2.isSome) :
    (seqList l).2.isSome := by
  induction l with
  | nil => cases ht
  | cons u us ih =>
    rcases List.mem_cons.mp ht with rfl | hmem
    · exact seq_isSome_left _ h
    · exact seq_isSome_right _ (ih hmem)

/-! ### Execution lemmas -/

theorem execCmds_cons_unchecked (env : List String → Nat) {c : Cmd} (rest : List Ev)
    (h : c.check = false) :
    execCmds env (Ev.run c :: rest) =
      (Ev.run c :: (execCmds env rest).1, (execCmds env rest).2) := by
  simp [execCmds, h]

/-- If none of the recorded commands carries check=True, every exit
status assignment lets the whole list execute to the end. -/
theorem execCmds_no_check (env : List String → Nat) (l : List Ev)
    (h : ∀ c : Cmd, Ev.run c ∈ l → c.check = false) :
    execCmds env l = (l, true) := by
  induction l with
  | nil => rfl
  | cons e rest ih =>
    have hrest : ∀ c : Cmd, Ev.run c ∈ rest → c.check = false :=
      fun c hc => h c (List.mem_cons_of_mem _ hc)
    cases e with
    | run c =>
      have hc : c.check = false := h c (List.mem_cons_self _ _)
      simp [execCmds, hc, ih hrest]
    | write p t => simp [execCmds, ih hrest]
    | mkdir p => simp [execCmds, ih hrest]

/-- A checked command with a nonzero exit status anywhere in the list
makes execution end in failure. -/
theorem execCmds_false_of_failing (env : List String → Nat) {l : List Ev} {c : Cmd}
    (hmem : Ev.run c ∈ l) (hcheck : c.check = true) (henv : env c.argv ≠ 0) :
    (execCmds env l).2 = false := by
  induction l with
  | nil => cases hmem
  | cons e rest ih =>
    rcases List.mem_cons.mp hmem with rfl | hmem2
    · simp [execCmds, hcheck, henv]
    · cases e with
      | run c2 =>
        by_cases hc2 : c2.check ∧ env c2.argv ≠ 0
        · simp [execCmds, hc2]
        · simp [execCmds, hc2, ih hmem2]
      | write p t => simp [execCmds, ih hmem2]
      | mkdir p => simp [execCmds, ih hmem2]

/-! ### Positions in stage-event lists -/

/-- Every occurrence of x comes strictly before every occurrence of y. -/
def Before {α : Type} (x y : α) (l : List α) : Prop :=
  ∀ i j, l.get? i = some x → l.get? j = some y → i < j

theorem before_of_split {α : Type} {l l₁ l₂ : List α} {x y : α}
    (h : l = l₁ ++ l₂) (hx : x ∉ l₂) (hy : y ∉ l₁) : Before x y l := by
  subst h
  intro i j hi hj
  have hi1 : i < l₁.length := by
    by_contra hlt
    push_neg at hlt
    rw [List.get?_append_right hlt] at hi
    exact hx (List.get?_mem hi)
  have hj1 : l₁.length ≤ j := by
    by_contra hlt
    push_neg at hlt
    rw [List.get?_append hlt] at hj
    exact hy (List.get?_mem hj)
  omega

theorem count_eq_one_of_split {α : Type} [DecidableEq α] {l l₁ l₂ : List α} {x : α}
    (h : l = l₁ ++ x :: l₂) (h1 : x ∉ l₁) (h2 : x ∉ l₂) : l.count x = 1 := by
  subst h
  rw [List.count_append]
  rw [List.count_eq_zero.mpr h1, List.count_cons_self, List.count_eq_zero.mpr h2]

theorem nodup_split_not_mem {α : Type} {l₁ l₂ : List α} {b : α}
    (h : (l₁ ++ b :: l₂).Nodup) : b ∉ l₁ ∧ b ∉ l₂ := by
  rw [List.nodup_append] at h
  obtain ⟨h1, h2, hdisj⟩ := h
  exact ⟨fun hm => hdisj hm (List.mem_cons_self b l₂), (List.nodup_cons.mp h2).1⟩

theorem flatMap_const_nil {α β : Type} (l : List α) (f : α → List β)
    (h : ∀ a ∈ l, f a = []) : l.flatMap f = [] := by
  induction l with
  | nil => rfl
  | cons a as ih =>
    rw [List.flatMap_cons, h a (List.mem_cons_self _ _), List.nil_append]
    exact ih fun x hx => h x (List.mem_cons_of_mem _ hx)

/-- Splitting a flatMap around a distinguished member of a duplicate-free
index list: everything to the left and right comes from other indices. -/
theorem flatMap_decomp {α β : Type} {l : List α} {a : α} (hl : l.Nodup) (ha : a ∈ l)
    (f : α → List β) :
    ∃ L R, l.flatMap f = L ++ f a ++ R ∧
      (∀ e ∈ L, ∃ x, x ≠ a ∧ x ∈ l ∧ e ∈ f x) ∧
      (∀ e ∈ R, ∃ x, x ≠ a ∧ x ∈ l ∧ e ∈ f x) := by
  obtain ⟨s, t, rfl⟩ := List.append_of_mem ha
  have hmem := nodup_split_not_mem hl
  refine ⟨s.flatMap f, t.flatMap f, ?_, ?_, ?_⟩
  · simp [List.flatMap_append, List.flatMap_cons, List.append_assoc]
  · intro e he
    obtain ⟨x, hx, hex⟩ := List.mem_flatMap.mp he
    exact ⟨x, fun hxa => hmem.1 (hxa ▸ hx), by simp [hx], hex⟩
  · intro e he
    obtain ⟨x, hx, hex⟩ := List.mem_flatMap.mp he
    exact ⟨x, fun hxa => hmem.2 (hxa ▸ hx), by simp [hx], hex⟩

/-! ### Membership in the stage skeleton -/

theorem mem_ifSingle {α : Type} {c : Prop} [Decidable c] {x y : α} :
    x ∈ (if c then [y] else []) ↔ c ∧ x = y := by
  by_cases h : c <;> simp [h]

theorem mem_cellS {st : List String} {a b d : String} {e : SEv} :
    e ∈ cellS st a b d ↔
      ("build_tarball" ∈ st ∧ e = SEv.buildTarball a b d) ∨
      ("build_image" ∈ st ∧ e = SEv.buildImage a b d) ∨
      ("test" ∈ st ∧ e = SEv.testStage a b d) := by
  simp [cellS, mem_ifSingle, List.mem_append]

theorem mem_blockS {st A : List String} {b d : String} {e : SEv} :
    e ∈ blockS st A b d ↔
      ("build_image" ∈ st ∧ e = SEv.removeManifest b d) ∨
      (∃ a ∈ A, e ∈ cellS st a b d) ∨
      ("push" ∈ st ∧ e = SEv.pushStage b d) := by
  simp [blockS, mem_ifSingle, List.mem_append, List.mem_flatMap]

theorem mem_buildAllS {A B D st : List String} {e : SEv} :
    e ∈ buildAllS A B D st ↔ ∃ b ∈ B, ∃ d ∈ D, e ∈ blockS st A b d := by
  simp [buildAllS, List.mem_flatMap]

/-- The (branch, date) pair an event belongs to; cleanStage belongs to
none. -/
def touches (branch date : String) : SEv → Prop
  | SEv.removeManifest b d => b = branch ∧ d = date
  | SEv.buildTarball _ b d => b = branch ∧ d = date
  | SEv.buildImage _ b d => b = branch ∧ d = date
  | SEv.testStage _ b d => b = branch ∧ d = date
  | SEv.pushStage b d => b = branch ∧ d = date
  | SEv.cleanStage => False

theorem touches_unique {b d b2 d2 : String} {e : SEv}
    (h1 : touches b d e) (h2 : touches b2 d2 e) : b = b2 ∧ d = d2 := by
  cases e <;> simp [touches] at h1 h2 <;> simp [h1.1 ▸ h2.1, h1.2 ▸ h2.2]

theorem cellS_touches {st : List String} {a b d : String} {e : SEv}
    (h : e ∈ cellS st a b d) : touches b d e := by
  rcases mem_cellS.mp h with ⟨-, rfl⟩ | ⟨-, rfl⟩ | ⟨-, rfl⟩ <;> exact ⟨rfl, rfl⟩

theorem blockS_touches {st A : List String} {b d : String} {e : SEv}
    (h : e ∈ blockS st A b d) : touches b d e := by
  rcases mem_blockS.mp h with ⟨-, rfl⟩ | ⟨a, -, hc⟩ | ⟨-, rfl⟩
  · exact ⟨rfl, rfl⟩
  · exact cellS_touches hc
  · exact ⟨rfl, rfl⟩

theorem cleanStage_not_mem_buildAllS {A B D st : List String} :
    SEv.cleanStage ∉ buildAllS A B D st := by
  intro h
  obtain ⟨b, -, d, -, hblk⟩ := mem_buildAllS.mp h
  exact blockS_touches hblk

/-- Splitting the run skeleton around the block of a chosen
(branch, date): nothing outside the block touches that pair. -/
theorem mainS_decomp (st A : List String) {B D : List String} (hB : B.Nodup) (hD : D.Nodup)
    {b d : String} (hb : b ∈ B) (hd : d ∈ D) :
    ∃ L R, mainS A B D st = L ++ blockS st A b d ++ R ∧
      (∀ e ∈ L, ¬ touches b d e) ∧ (∀ e ∈ R, ¬ touches b d e) := by
  obtain ⟨L1, R1, hEq1, hL1, hR1⟩ :=
    flatMap_decomp hB hb (fun branch => D.flatMap fun date => blockS st A branch date)
  obtain ⟨L2, R2, hEq2, hL2, hR2⟩ := flatMap_decomp hD hd (fun date => blockS st A b date)
  refine ⟨L1 ++ L2, R2 ++ (R1 ++ (if "clean" ∈ st then [SEv.cleanStage] else [])), ?_, ?_, ?_⟩
  · unfold mainS buildAllS
    rw [hEq1, hEq2]
    simp [List.append_assoc]
  · intro e he
    intro htch
    rcases List.mem_append.mp he with h1 | h2
    · obtain ⟨b2, hb2, -, hmem⟩ := hL1 e h1
      obtain ⟨d2, -, hblk⟩ := List.mem_flatMap.mp hmem
      exact hb2 ((touches_unique (blockS_touches hblk) htch).1)
    · obtain ⟨d2, hd2, -, hblk⟩ := hL2 e h2
      exact hd2 ((touches_unique (blockS_touches hblk) htch).2)
  · intro e he
    intro htch
    rcases List.mem_append.mp he with h2 | h1
    · obtain ⟨d2, hd2, -, hblk⟩ := hR2 e h2
      exact hd2 ((touches_unique (blockS_touches hblk) htch).2)
    rcases List.mem_append.mp h1 with h1 | hcl
    · obtain ⟨b2, hb2, -, hmem⟩ := hR1 e h1
      obtain ⟨d2, -, hblk⟩ := List.mem_flatMap.mp hmem
      exact hb2 ((touches_unique (blockS_touches hblk) htch).1)
    · rcases mem_ifSingle.mp hcl with ⟨-, rfl⟩
      exact htch

/-- Splitting the architecture loop of a block around a chosen
architecture. -/
theorem arches_decomp (st : List String) {A : List String} (hA : A.Nodup)
    {a : String} (ha : a ∈ A) (b d : String) :
    ∃ CL CR, A.flatMap (fun x => cellS st x b d) = CL ++ cellS st a b d ++ CR ∧
      (∀ e ∈ CL, ∃ x, x ≠ a ∧ e ∈ cellS st x b d) ∧
      (∀ e ∈ CR, ∃ x, x ≠ a ∧ e ∈ cellS st x b d) := by
  obtain ⟨CL, CR, hEq, hL, hR⟩ := flatMap_decomp hA ha (fun x => cellS st x b d)
  exact ⟨CL, CR, hEq,
    fun e he => (hL e he).imp fun x hx => ⟨hx.1, hx.2.2⟩,
    fun e he => (hR e he).imp fun x hx => ⟨hx.1, hx.2.2⟩⟩

theorem cellS_arch {st : List String} {x b d : String} {e : SEv} (he : e ∈ cellS st x b d) :
    e = SEv.buildTarball x b d ∨ e = SEv.buildImage x b d ∨ e = SEv.testStage x b d := by
  rcases mem_cellS.mp he with ⟨-, h⟩ | ⟨-, h⟩ | ⟨-, h⟩ <;> simp [h]

/-- Full anatomy of the run skeleton around one matrix cell, written in
right-associated form: the surrounding context L and R never touches the
(branch, date) of the cell, and the cell lists CL and CR of the other
architectures in the same block never mention the chosen architecture. -/
theorem mainS_anatomy (st : List String) {A B D : List String}
    (hA : A.Nodup) (hB : B.Nodup) (hD : D.Nodup)
    {a b d : String} (ha : a ∈ A) (hb : b ∈ B) (hd : d ∈ D) :
    ∃ L CL CR R, mainS A B D st =
      L ++ ((if "build_image" ∈ st then [SEv.removeManifest b d] else []) ++
      (CL ++ ((if "build_tarball" ∈ st then [SEv.buildTarball a b d] else []) ++
      ((if "build_image" ∈ st then [SEv.buildImage a b d] else []) ++
      ((if "test" ∈ st then [SEv.testStage a b d] else []) ++
      (CR ++ ((if "push" ∈ st then [SEv.pushStage b d] else []) ++ R))))))) ∧
      (∀ e ∈ L, ¬ touches b d e) ∧ (∀ e ∈ R, ¬ touches b d e) ∧
      (∀ e ∈ CL, ∃ x, x ≠ a ∧ e ∈ cellS st x b d) ∧
      (∀ e ∈ CR, ∃ x, x ≠ a ∧ e ∈ cellS st x b d) := by
  obtain ⟨L, R, hEq, hL, hR⟩ := mainS_decomp st A hB hD hb hd
  obtain ⟨CL, CR, hCEq, hCL, hCR⟩ := arches_decomp st hA ha b d
  refine ⟨L, CL, CR, R, ?_, hL, hR, hCL, hCR⟩
  rw [hEq]
  unfold blockS
  rw [hCEq]
  unfold cellS
  simp [List.append_assoc]

/-! ### Ordering facts about the stage skeleton -/

theorem cell_order_bt_bi (st : List String) {A B D : List String}
    (hA : A.Nodup) (hB : B.Nodup) (hD : D.Nodup)
    {a b d : String} (ha : a ∈ A) (hb : b ∈ B) (hd : d ∈ D) :
    Before (SEv.buildTarball a b d) (SEv.buildImage a b d) (mainS A B D st) := by
  obtain ⟨L, CL, CR, R, hEq, hL, hR, hCL, hCR⟩ := mainS_anatomy st hA hB hD ha hb hd
  have hsplit : mainS A B D st =
      (L ++ ((if "build_image" ∈ st then [SEv.removeManifest b d] else []) ++
        (CL ++ (if "build_tarball" ∈ st then [SEv.buildTarball a b d] else [])))) ++
      ((if "build_image" ∈ st then [SEv.buildImage a b d] else []) ++
        ((if "test" ∈ st then [SEv.testStage a b d] else []) ++
          (CR ++ ((if "push" ∈ st then [SEv.pushStage b d] else []) ++ R)))) := by
    rw [hEq]
    simp [List.append_assoc]
  refine before_of_split hsplit ?_ ?_
  · intro hmem
    simp only [List.mem_append, mem_ifSingle] at hmem
    rcases hmem with ⟨-, h⟩ | ⟨-, h⟩ | hmem | ⟨-, h⟩ | hmem
    · cases h
    · cases h
    · obtain ⟨x, hxa, hx⟩ := hCR _ hmem
      rcases cellS_arch hx with h | h | h
      · injection h with h1 h2 h3
        exact hxa h1.symm
      · cases h
      · cases h
    · cases h
    · exact hR _ hmem ⟨rfl, rfl⟩
  · intro hmem
    simp only [List.mem_append, mem_ifSingle] at hmem
    rcases hmem with hmem | ⟨-, h⟩ | hmem | ⟨-, h⟩
    · exact hL _ hmem ⟨rfl, rfl⟩
    · cases h
    · obtain ⟨x, hxa, hx⟩ := hCL _ hmem
      rcases cellS_arch hx with h | h | h
      · cases h
      · injection h with h1 h2 h3
        exact hxa h1.symm
      · cases h
    · cases h

theorem cell_order_bi_ts (st : List String) {A B D : List String}
    (hA : A.Nodup) (hB : B.Nodup) (hD : D.Nodup)
    {a b d : String} (ha : a ∈ A) (hb : b ∈ B) (hd : d ∈ D) :
    Before (SEv.buildImage a b d) (SEv.testStage a b d) (mainS A B D st) := by
  obtain ⟨L, CL, CR, R, hEq, hL, hR, hCL, hCR⟩ := mainS_anatomy st hA hB hD ha hb hd
  have hsplit : mainS A B D st =
      (L ++ ((if "build_image" ∈ st then [SEv.removeManifest b d] else []) ++
        (CL ++ ((if "build_tarball" ∈ st then [SEv.buildTarball a b d] else []) ++
          (if "build_image" ∈ st then [SEv.buildImage a b d] else []))))) ++
      ((if "test" ∈ st then [SEv.testStage a b d] else []) ++
        (CR ++ ((if "push" ∈ st then [SEv.pushStage b d] else []) ++ R))) := by
    rw [hEq]
    simp [List.append_assoc]
  refine before_of_split hsplit ?_ ?_
  · intro hmem
    simp only [List.mem_append, mem_ifSingle] at hmem
    rcases hmem with ⟨-, h⟩ | hmem | ⟨-, h⟩ | hmem
    · cases h
    · obtain ⟨x, hxa, hx⟩ := hCR _ hmem
      rcases cellS_arch hx with h | h | h
      · cases h
      · injection h with h1 h2 h3
        exact hxa h1.symm
      · cases h
    · cases h
    · exact hR _ hmem ⟨rfl, rfl⟩
  · intro hmem
    simp only [List.mem_append, mem_ifSingle] at hmem
    rcases hmem with hmem | ⟨-, h⟩ | hmem | ⟨-, h⟩ | ⟨-, h⟩
    · exact hL _ hmem ⟨rfl, rfl⟩
    · cases h
    · obtain ⟨x, hxa, hx⟩ := hCL _ hmem
      rcases cellS_arch hx with h | h | h
      · cases h
      · cases h
      · injection h with h1 h2 h3
        exact hxa h1.symm
    · cases h
    · cases h

theorem cell_order_bt_ts (st : List String) {A B D : List String}
    (hA : A.Nodup) (hB : B.Nodup) (hD : D.Nodup)
    {a b d : String} (ha : a ∈ A) (hb : b ∈ B) (hd : d ∈ D) :
    Before (SEv.buildTarball a b d) (SEv.testStage a b d) (mainS A B D st) := by
  obtain ⟨L, CL, CR, R, hEq, hL, hR, hCL, hCR⟩ := mainS_anatomy st hA hB hD ha hb hd
  have hsplit : mainS A B D st =
      (L ++ ((if "build_image" ∈ st then [SEv.removeManifest b d] else []) ++
        (CL ++ (if "build_tarball" ∈ st then [SEv.buildTarball a b d] else [])))) ++
      ((if "build_image" ∈ st then [SEv.buildImage a b d] else []) ++
        ((if "test" ∈ st then [SEv.testStage a b d] else []) ++
          (CR ++ ((if "push" ∈ st then [SEv.pushStage b d] else []) ++ R)))) := by
    rw [hEq]
    simp [List.append_assoc]
  refine before_of_split hsplit ?_ ?_
  · intro hmem
    simp only [List.mem_append, mem_ifSingle] at hmem
    rcases hmem with ⟨-, h⟩ | ⟨-, h⟩ | hmem | ⟨-, h⟩ | hmem
    · cases h
    · cases h
    · obtain ⟨x, hxa, hx⟩ := hCR _ hmem
      rcases cellS_arch hx with h | h | h
      · injection h with h1 h2 h3
        exact hxa h1.symm
      · cases h
      · cases h
    · cases h
    · exact hR _ hmem ⟨rfl, rfl⟩
  · intro hmem
    simp only [List.mem_append, mem_ifSingle] at hmem
    rcases hmem with hmem | ⟨-, h⟩ | hmem | ⟨-, h⟩
    · exact hL _ hmem ⟨rfl, rfl⟩
    · cases h
    · obtain ⟨x, hxa, hx⟩ := hCL _ hmem
      rcases cellS_arch hx with h | h | h
      · cases h
      · cases h
      · injection h with h1 h2 h3
        exact hxa h1.symm
    · cases h

/-- Any cell event of a (branch, date) comes before its push event. -/
theorem cell_before_push (st A : List String) {B D : List String}
    (hB : B.Nodup) (hD : D.Nodup) {b d : String} (hb : b ∈ B) (hd : d ∈ D)
    (x : SEv)
    (hx : ∃ y, x = SEv.buildTarball y b d ∨ x = SEv.buildImage y b d ∨ x = SEv.testStage y b d) :
    Before x (SEv.pushStage b d) (mainS A B D st) := by
  obtain ⟨L, R, hEq, hL, hR⟩ := mainS_decomp st A hB hD hb hd
  have hsplit : mainS A B D st =
      (L ++ ((if "build_image" ∈ st then [SEv.removeManifest b d] else []) ++
        A.flatMap (fun x => cellS st x b d))) ++
      ((if "push" ∈ st then [SEv.pushStage b d] else []) ++ R) := by
    rw [hEq]
    unfold blockS
    simp [List.append_assoc]
  obtain ⟨y, hy⟩ := hx
  refine before_of_split hsplit ?_ ?_
  · intro hmem
    simp only [List.mem_append, mem_ifSingle] at hmem
    rcases hmem with ⟨-, h⟩ | hmem
    · rcases hy with rfl | rfl | rfl <;> cases h
    · refine hR _ hmem ?_
      rcases hy with rfl | rfl | rfl <;> exact ⟨rfl, rfl⟩
  · intro hmem
    simp only [List.mem_append, mem_ifSingle] at hmem
    rcases hmem with hmem | ⟨-, h⟩ | hmem
    · exact hL _ hmem ⟨rfl, rfl⟩
    · cases h
    · obtain ⟨x2, -, hcell⟩ := List.mem_flatMap.mp hmem
      rcases cellS_arch hcell with h | h | h <;> cases h

/-- The manifest removal of a (branch, date) comes before any cell event
of that pair. -/
theorem rm_before_cell (st A : List String) {B D : List String}
    (hB : B.Nodup) (hD : D.Nodup) {b d : String} (hb : b ∈ B) (hd : d ∈ D)
    (x : SEv)
    (hx : ∃ y, x = SEv.buildTarball y b d ∨ x = SEv.buildImage y b d ∨ x = SEv.testStage y b d) :
    Before (SEv.removeManifest b d) x (mainS A B D st) := by
  obtain ⟨L, R, hEq, hL, hR⟩ := mainS_decomp st A hB hD hb hd
  have hsplit : mainS A B D st =
      (L ++ (if "build_image" ∈ st then [SEv.removeManifest b d] else [])) ++
      (A.flatMap (fun x => cellS st x b d) ++
        ((if "push" ∈ st then [SEv.pushStage b d] else []) ++ R)) := by
    rw [hEq]
    unfold blockS
    simp [List.append_assoc]
  obtain ⟨y, hy⟩ := hx
  refine before_of_split hsplit ?_ ?_
  · intro hmem
    simp only [List.mem_append, mem_ifSingle] at hmem
    rcases hmem with hmem | ⟨-, h⟩ | hmem
    · obtain ⟨x2, -, hcell⟩ := List.mem_flatMap.mp hmem
      rcases cellS_arch hcell with h | h | h <;> cases h
    · cases h
    · exact hR _ hmem ⟨rfl, rfl⟩
  · intro hmem
    simp only [List.mem_append, mem_ifSingle] at hmem
    rcases hmem with hmem | ⟨-, h⟩
    · refine hL _ hmem ?_
      rcases hy with rfl | rfl | rfl <;> exact ⟨rfl, rfl⟩
    · rcases hy with rfl | rfl | rfl <;> cases h

/-- With push requested, the push of a pair present in the matrix occurs
exactly once, regardless of the number of architectures. -/
theorem push_count (st A : List String) {B D : List String}
    (hB : B.Nodup) (hD : D.Nodup) {b d : String} (hb : b ∈ B) (hd : d ∈ D)
    (hp : "push" ∈ st) :
    (mainS A B D st).count (SEv.pushStage b d) = 1 := by
  obtain ⟨L, R, hEq, hL, hR⟩ := mainS_decomp st A hB hD hb hd
  have hsplit : mainS A B D st =
      (L ++ ((if "build_image" ∈ st then [SEv.removeManifest b d] else []) ++
        A.flatMap (fun x => cellS st x b d))) ++
      SEv.pushStage b d :: R := by
    rw [hEq]
    unfold blockS
    simp [hp, List.append_assoc]
  refine count_eq_one_of_split hsplit ?_ ?_
  · intro hmem
    simp only [List.mem_append, mem_ifSingle] at hmem
    rcases hmem with hmem | ⟨-, h⟩ | hmem
    · exact hL _ hmem ⟨rfl, rfl⟩
    · cases h
    · obtain ⟨x2, -, hcell⟩ := List.mem_flatMap.mp hmem
      rcases cellS_arch hcell with h | h | h <;> cases h
  · intro hmem
    exact hR _ hmem ⟨rfl, rfl⟩

theorem push_not_mem {st : List String} (A B D : List String) (hp : "push" ∉ st)
    (b d : String) : SEv.pushStage b d ∉ mainS A B D st := by
  intro hmem
  rcases List.mem_append.mp hmem with hmem | hmem
  · obtain ⟨b2, -, d2, -, hblk⟩ := mem_buildAllS.mp hmem
    rcases mem_blockS.mp hblk with ⟨-, h⟩ | ⟨x, -, hcell⟩ | ⟨hp2, -⟩
    · cases h
    · rcases cellS_arch hcell with h | h | h <;> cases h
    · exact hp hp2
  · rcases mem_ifSingle.mp hmem with ⟨-, h⟩
    cases h

theorem rm_not_mem {st : List String} (A B D : List String) (hbi : "build_image" ∉ st)
    (b d : String) : SEv.removeManifest b d ∉ mainS A B D st := by
  intro hmem
  rcases List.mem_append.mp hmem with hmem | hmem
  · obtain ⟨b2, -, d2, -, hblk⟩ := mem_buildAllS.mp hmem
    rcases mem_blockS.mp hblk with ⟨hbi2, -⟩ | ⟨x, -, hcell⟩ | ⟨-, h⟩
    · exact hbi hbi2
    · rcases cellS_arch hcell with h | h | h <;> cases h
    · cases h
  · rcases mem_ifSingle.mp hmem with ⟨-, h⟩
    cases h

theorem rm_mem (st A : List String) {B D : List String} {b d : String}
    (hb : b ∈ B) (hd : d ∈ D) (hbi : "build_image" ∈ st) :
    SEv.removeManifest b d ∈ mainS A B D st := by
  refine List.mem_append.mpr (Or.inl (mem_buildAllS.mpr ⟨b, hb, d, hd, ?_⟩))
  exact mem_blockS.mpr (Or.inl ⟨hbi, rfl⟩)

theorem clean_count {st : List String} (A B D : List String) (hc : "clean" ∈ st) :
    (mainS A B D st).count SEv.cleanStage = 1 := by
  have hsplit : mainS A B D st = buildAllS A B D st ++ SEv.cleanStage :: [] := by
    unfold mainS
    simp [hc]
  exact count_eq_one_of_split hsplit cleanStage_not_mem_buildAllS (by simp)

theorem clean_last {st : List String} (A B D : List String) (hc : "clean" ∈ st) :
    ∀ i, (mainS A B D st).get? i = some SEv.cleanStage → i + 1 = (mainS A B D st).length := by
  intro i hi
  have hEq : mainS A B D st = buildAllS A B D st ++ [SEv.cleanStage] := by
    unfold mainS
    simp [hc]
  rw [hEq] at hi ⊢
  have hge : (buildAllS A B D st).length ≤ i := by
    by_contra hlt
    push_neg at hlt
    rw [List.get?_append hlt] at hi
    exact cleanStage_not_mem_buildAllS (List.get?_mem hi)
  rw [List.get?_append_right hge] at hi
  have hlt1 : i - (buildAllS A B D st).length < 1 := by
    by_contra hge1
    push_neg at hge1
    rw [List.get?_len_le (by simpa using hge1)] at hi
    cases hi
  rw [List.length_append]
  simp only [List.length_singleton]
  omega

theorem clean_not_mem {st : List String} (A B D : List String) (hc : "clean" ∉ st) :
    SEv.cleanStage ∉ mainS A B D st := by
  intro hmem
  rcases List.mem_append.mp hmem with hmem | hmem
  · exact cleanStage_not_mem_buildAllS hmem
  · rcases mem_ifSingle.mp hmem with ⟨hc2, -⟩
    exact hc hc2

/-! ### The run depends only on stage membership -/

theorem buildAllS_congr (A B D : List String) {st st2 : List String}
    (h : ∀ s, s ∈ st ↔ s ∈ st2) : buildAllS A B D st = buildAllS A B D st2 := by
  simp only [buildAllS, blockS, cellS, h]

theorem mainS_congr (A B D : List String) {st st2 : List String}
    (h : ∀ s, s ∈ st ↔ s ∈ st2) : mainS A B D st = mainS A B D st2 := by
  simp only [mainS, h, buildAllS_congr A B D h]

theorem main_congr (A B : List String) (dates : Option (List String))
    (mpd r o n : String) (pk : List String) {st st2 : List String}
    (h : ∀ s, s ∈ st ↔ s ∈ st2) :
    main A B dates mpd r o n st pk = main A B dates mpd r o n st2 pk := by
  cases dates with
  | none => simp only [main, build_all, h]
  | some ds => simp only [main, build_all, h, buildAllS_congr A B ds h]

/-- main over a present dates list is the sequential denotation of the
whole stage skeleton, clean event included. -/
theorem main_eq_mainS (A B D : List String) (mpd r o n : String) (st pk : List String) :
    main A B (some D) mpd r o n st pk =
      seqList ((mainS A B D st).map (stageDenote (repoOf r o) n mpd pk)) := by
  unfold main build_all mainS
  rw [List.map_append, seqList_append]
  congr 1
  by_cases hc : "clean" ∈ st <;>
    simp [hc, seqList, stageDenote, seq_pure_right]

/-! ### Runs requesting no per-cell stage and no push do nothing -/

theorem buildAllS_nil (A B D : List String) {st : List String}
    (h1 : "build_tarball" ∉ st) (h2 : "build_image" ∉ st)
    (h3 : "test" ∉ st) (h4 : "push" ∉ st) : buildAllS A B D st = [] := by
  have hcell : ∀ a b d, cellS st a b d = [] := by
    intro a b d
    simp [cellS, h1, h2, h3]
  have hblock : ∀ b d, blockS st A b d = [] := by
    intro b d
    unfold blockS
    rw [if_neg h2, if_neg h4, flatMap_const_nil A _ fun a _ => hcell a b d]
    rfl
  unfold buildAllS
  exact flatMap_const_nil _ _ fun b _ =>
    flatMap_const_nil _ _ fun d _ => hblock b d

/-! ### Configuration errors -/

theorem gsl_err {arch date : String} (branch : String)
    (h : apt_date date = none ∨ ARCH_MAP arch = none) :
    ∃ e, generate_source_list arch branch date = Except.error e := by
  unfold generate_source_list
  rcases h with h | h
  · rw [h]
    exact ⟨_, rfl⟩
  · cases hd : apt_date date with
    | none => exact ⟨_, rfl⟩
    | some fdate =>
      rw [h]
      exact ⟨_, rfl⟩

/-- When the source-list computation raises (malformed date or unmapped
architecture), build_tarball writes apt.conf and stops with that error;
no subprocess has been started. -/
theorem build_tarball_err {arch branch date : String} (mpd : String) {e : Err}
    (hgsl : generate_source_list arch branch date = Except.error e) :
    build_tarball arch branch date mpd =
      ([Ev.write APT_CONF aptConfText], some e) := by
  unfold build_tarball create_apt_files
  rw [hgsl]
  simp [seq, emit, fail]

theorem build_tarball_isSome {arch branch date : String} (mpd : String)
    (h : apt_date date = none ∨ ARCH_MAP arch = none) :
    (build_tarball arch branch date mpd).2.isSome := by
  obtain ⟨e, he⟩ := gsl_err branch h
  unfold build_tarball create_apt_files
  rw [he]
  exact seq_isSome_left _ (seq_isSome_right _ (by simp [fail]))

theorem buildah_build_isSome {arch branch date manifest image : String}
    (pk : List String) (h : apt_date date = none ∨ ARCH_MAP arch = none) :
    (buildah_build arch branch date manifest image pk).2.isSome := by
  obtain ⟨e, he⟩ := gsl_err branch h
  unfold buildah_build
  rw [he]
  exact seq_isSome_right _ (seq_isSome_right _ (seq_isSome_right _ (seq_isSome_right _
    (seq_isSome_right _ (seq_isSome_left _ (by simp [fail]))))))

theorem test_isSome {arch branch date image : String}
    (h : apt_date date = none ∨ ARCH_MAP arch = none) :
    (test arch branch date image).2.isSome := by
  unfold test
  cases hA : ARCH_MAP arch with
  | none => simp [fail]
  | some aid =>
    have hD : apt_date date = none := by
      rcases h with h | h
      · exact h
      · rw [hA] at h
        cases h
    rw [hD]
    simp [fail]

/-! ### Shape of the generated source list -/

/-- x occurs as a contiguous substring of s. -/
def SubstrOf (x s : String) : Prop := ∃ p q, s = p ++ (x ++ q)

/-- s contains no newline, hence is a single line. -/
def noNL (s : String) : Prop := '\n' ∉ s.data

theorem digitChar_ne_nl (n : Nat) : digitChar n ≠ '\n' := by
  unfold digitChar
  split <;> decide

theorem natDigits_ne_nl (fuel n : Nat) {c : Char} (hc : c ∈ natDigits fuel n) : c ≠ '\n' := by
  induction fuel generalizing n with
  | zero => cases hc
  | succ f ih =>
    unfold natDigits at hc
    by_cases h10 : n < 10
    · rw [if_pos h10] at hc
      rcases List.mem_singleton.mp hc with rfl
      exact digitChar_ne_nl n
    · rw [if_neg h10] at hc
      rcases List.mem_append.mp hc with hc | hc
      · exact ih _ hc
      · rcases List.mem_singleton.mp hc with rfl
        exact digitChar_ne_nl (n % 10)

theorem natStr_noNL (n : Nat) : noNL (natStr n) := by
  intro hmem
  exact natDigits_ne_nl (n + 1) n hmem rfl

theorem pad2_noNL (n : Nat) : noNL (pad2 n) := by
  unfold pad2
  by_cases h10 : n < 10
  · rw [if_pos h10]
    intro hmem
    rw [String.data_append] at hmem
    rcases List.mem_append.mp hmem with hmem | hmem
    · cases List.mem_singleton.mp hmem
    · exact natStr_noNL n hmem
  · rw [if_neg h10]
    exact natStr_noNL n

theorem apt_date_noNL {s t : String} (h : apt_date s = some t) : noNL t := by
  unfold apt_date at h
  cases hp : parseIso s with
  | none =>
    rw [hp] at h
    cases h
  | some ymd =>
    rw [hp] at h
    obtain rfl : natStr ymd.1 ++ "/" ++ pad2 ymd.2.1 ++ "/" ++ pad2 ymd.2.2 = t :=
      Option.some.inj h
    intro hmem
    simp only [String.data_append, List.mem_append] at hmem
    rcases hmem with (((hmem | hmem) | hmem) | hmem) | hmem
    · exact natStr_noNL _ hmem
    · cases List.mem_singleton.mp hmem
    · exact pad2_noNL _ hmem
    · cases List.mem_singleton.mp hmem
    · exact pad2_noNL _ hmem

theorem arch_map_values {arch aid : String} (h : ARCH_MAP arch = some aid) :
    aid = "x86_64" ∨ aid = "i586" ∨ aid = "aarch64" ∨ aid = "armh" ∨ aid = "ppc64le" := by
  unfold ARCH_MAP at h
  split at h <;> simp_all

theorem arch_map_noNL {arch aid : String} (h : ARCH_MAP arch = some aid) : noNL aid := by
  rcases arch_map_values h with rfl | rfl | rfl | rfl | rfl <;> (unfold noNL; decide)

theorem branch_noNL {branch : String} (h : branch ∈ allBranches) : noNL branch := by
  simp only [allBranches, List.mem_cons, List.mem_singleton, List.not_mem_nil, or_false] at h
  rcases h with rfl | rfl | rfl <;> (unfold noNL; decide)

theorem srcLine_noNL {branch fdate aid : String}
    (hb : noNL branch) (hf : noNL fdate) (ha : noNL aid) : noNL (srcLine branch fdate aid) := by
  unfold srcLine
  intro hmem
  simp only [String.data_append, List.mem_append] at hmem
  rcases hmem with (((((((hmem | hmem) | hmem) | hmem) | hmem) | hmem) | hmem) | hmem) | hmem
  · exact (by decide : '\n' ∉ "rpm ".data) hmem
  · exact (by decide : '\n' ∉ repoRoot.data) hmem
  · exact (by decide : '\n' ∉ "/".data) hmem
  · exact hb hmem
  · exact (by decide : '\n' ∉ "/date/".data) hmem
  · exact hf hmem
  · exact (by decide : '\n' ∉ " ".data) hmem
  · exact ha hmem
  · exact (by decide : '\n' ∉ " classic".data) hmem

theorem srcLine_has_branch (branch fdate aid : String) :
    SubstrOf branch (srcLine branch fdate aid) := by
  refine ⟨"rpm " ++ repoRoot ++ "/", "/date/" ++ fdate ++ " " ++ aid ++ " classic", ?_⟩
  unfold srcLine
  simp only [String.append_assoc]

theorem srcLine_has_fdate (branch fdate aid : String) :
    SubstrOf fdate (srcLine branch fdate aid) := by
  refine ⟨"rpm " ++ repoRoot ++ "/" ++ branch ++ "/date/", " " ++ aid ++ " classic", ?_⟩
  unfold srcLine
  simp only [String.append_assoc]

theorem srcLine_has_aid (branch fdate aid : String) :
    SubstrOf aid (srcLine branch fdate aid) := by
  refine ⟨"rpm " ++ repoRoot ++ "/" ++ branch ++ "/date/" ++ fdate ++ " ", " classic", ?_⟩
  unfold srcLine
  simp only [String.append_assoc]

/-! ### Where a first-cell configuration error surfaces -/

theorem cellS_cons_bt {st : List String} (hbt : "build_tarball" ∈ st)
    (hbi : "build_image" ∉ st) (a b d : String) :
    cellS st a b d =
      SEv.buildTarball a b d :: (if "test" ∈ st then [SEv.testStage a b d] else []) := by
  unfold cellS
  rw [if_pos hbt, if_neg hbi]
  simp

theorem blockS_cons_bt {st : List String} (hbt : "build_tarball" ∈ st)
    (hbi : "build_image" ∉ st) (a b d : String) (A2 : List String) :
    blockS st (a :: A2) b d =
      SEv.buildTarball a b d ::
        ((if "test" ∈ st then [SEv.testStage a b d] else []) ++
          (A2.flatMap (fun x => cellS st x b d) ++
            (if "push" ∈ st then [SEv.pushStage b d] else []))) := by
  unfold blockS
  rw [if_neg hbi, List.flatMap_cons, cellS_cons_bt hbt hbi a b d]
  simp [List.append_assoc]

theorem buildAllS_cons_bt {st : List String} (hbt : "build_tarball" ∈ st)
    (hbi : "build_image" ∉ st) (a b d : String) (A2 B2 D2 : List String) :
    buildAllS (a :: A2) (b :: B2) (d :: D2) st =
      SEv.buildTarball a b d ::
        ((if "test" ∈ st then [SEv.testStage a b d] else []) ++
          (A2.flatMap (fun x => cellS st x b d) ++
            ((if "push" ∈ st then [SEv.pushStage b d] else []) ++
              (D2.flatMap (fun dd => blockS st (a :: A2) b dd) ++
                B2.flatMap (fun bb => (d :: D2).flatMap (fun dd => blockS st (a :: A2) bb dd)))))) := by
  unfold buildAllS
  rw [List.flatMap_cons, List.flatMap_cons, blockS_cons_bt hbt hbi a b d A2]
  simp [List.append_assoc]

/-- With build_tarball requested and build_image not, a configuration
error of the first cell aborts the run after the single apt.conf write,
before any subprocess at all. -/
theorem main_bt_first_trace {st : List String} {d : String} (a b : String)
    (A2 B2 D2 : List String) (mpd r o n : String) (pk : List String) {e : Err}
    (hgsl : generate_source_list a b d = Except.error e)
    (hbt : "build_tarball" ∈ st) (hbi : "build_image" ∉ st) :
    main (a :: A2) (b :: B2) (some (d :: D2)) mpd r o n st pk =
      ([Ev.write APT_CONF aptConfText], some e) := by
  unfold main build_all
  show seq (seqList (List.map (stageDenote (repoOf r o) n mpd pk)
      (buildAllS (a :: A2) (b :: B2) (d :: D2) st)))
    (if "clean" ∈ st then clean else pureT) = _
  rw [buildAllS_cons_bt hbt hbi a b d A2 B2 D2, List.map_cons]
  have hden : stageDenote (repoOf r o) n mpd pk (SEv.buildTarball a b d) =
      ([Ev.write APT_CONF aptConfText], some e) :=
    build_tarball_err mpd hgsl
  show seq (seq (stageDenote (repoOf r o) n mpd pk (SEv.buildTarball a b d)) _) _ = _
  rw [hden, seq_err _ rfl, seq_err _ rfl]

/-- The head of the performed events of a sequential composition is the
head of the first component, whether or not it raised afterwards. -/
theorem seq_fst_head {a : Tr} (b : Tr) {x : Ev} {t : List Ev} (h : a.1 = x :: t) :
    ∃ u, (seq a b).1 = x :: u := by
  rcases a with ⟨ea, oa⟩
  have h2 : ea = x :: t := h
  cases oa with
  | none => exact ⟨t ++ b.1, by simp [seq, h2]⟩
  | some e => exact ⟨t, by simp [seq, h2]⟩

theorem cellS_cons_test {st : List String} (hbt : "build_tarball" ∉ st)
    (hbi : "build_image" ∉ st) (hts : "test" ∈ st) (a b d : String) :
    cellS st a b d = [SEv.testStage a b d] := by
  unfold cellS
  rw [if_neg hbt, if_neg hbi, if_pos hts]
  simp

theorem blockS_cons_test {st : List String} (hbt : "build_tarball" ∉ st)
    (hbi : "build_image" ∉ st) (hts : "test" ∈ st) (a b d : String) (A2 : List String) :
    blockS st (a :: A2) b d =
      SEv.testStage a b d ::
        (A2.flatMap (fun x => cellS st x b d) ++
          (if "push" ∈ st then [SEv.pushStage b d] else [])) := by
  unfold blockS
  rw [if_neg hbi, List.flatMap_cons, cellS_cons_test hbt hbi hts a b d]
  simp [List.append_assoc]

theorem buildAllS_cons_test {st : List String} (hbt : "build_tarball" ∉ st)
    (hbi : "build_image" ∉ st) (hts : "test" ∈ st) (a b d : String)
    (A2 B2 D2 : List String) :
    buildAllS (a :: A2) (b :: B2) (d :: D2) st =
      SEv.testStage a b d ::
        (A2.flatMap (fun x => cellS st x b d) ++
          ((if "push" ∈ st then [SEv.pushStage b d] else []) ++
            (D2.flatMap (fun dd => blockS st (a :: A2) b dd) ++
              B2.flatMap (fun bb => (d :: D2).flatMap (fun dd => blockS st (a :: A2) bb dd))))) := by
  unfold buildAllS
  rw [List.flatMap_cons, List.flatMap_cons, blockS_cons_test hbt hbi hts a b d A2]
  simp [List.append_assoc]

/-- test on a mapped architecture but malformed date raises the
ValueError while building the commands list, before any podman call. -/
theorem test_err_val {arch date : String} (branch image : String) {aid : String}
    (hA : ARCH_MAP arch = some aid) (hD : apt_date date = none) :
    test arch branch date image = ([], some (Err.valueError date)) := by
  unfold test
  rw [hA, hD]
  rfl

/-- test on an unmapped architecture raises the KeyError while building
the commands list, before any podman call. -/
theorem test_err_key {arch : String} (branch date image : String)
    (hA : ARCH_MAP arch = none) :
    test arch branch date image = ([], some (Err.keyError arch)) := by
  unfold test
  rw [hA]
  rfl

/-- With only test requested among the per-cell stages, an error raised
by test on the first cell is the whole run: no event happens at all. -/
theorem main_test_first_of {st : List String} {a b d : String} {e : Err}
    (A2 B2 D2 : List String) (mpd r o n : String) (pk : List String)
    (hbt : "build_tarball" ∉ st) (hbi : "build_image" ∉ st) (hts : "test" ∈ st)
    (htest : test a b d (imageName (repoOf r o) n b d a) = ([], some e)) :
    main (a :: A2) (b :: B2) (some (d :: D2)) mpd r o n st pk = ([], some e) := by
  unfold main build_all
  show seq (seqList (List.map (stageDenote (repoOf r o) n mpd pk)
      (buildAllS (a :: A2) (b :: B2) (d :: D2) st)))
    (if "clean" ∈ st then clean else pureT) = _
  rw [buildAllS_cons_test hbt hbi hts a b d A2 B2 D2, List.map_cons]
  have hden : stageDenote (repoOf r o) n mpd pk (SEv.testStage a b d) = ([], some e) := htest
  show seq (seq (stageDenote (repoOf r o) n mpd pk (SEv.testStage a b d)) _) _ = _
  rw [hden, seq_err _ rfl, seq_err _ rfl]

theorem blockS_cons_rm {st : List String} (hbi : "build_image" ∈ st)
    (A : List String) (b d : String) :
    blockS st A b d =
      SEv.removeManifest b d ::
        (A.flatMap (fun x => cellS st x b d) ++
          (if "push" ∈ st then [SEv.pushStage b d] else [])) := by
  unfold blockS
  rw [if_pos hbi]
  simp

theorem buildAllS_cons_rm {st : List String} (hbi : "build_image" ∈ st)
    (A : List String) (b d : String) (B2 D2 : List String) :
    buildAllS A (b :: B2) (d :: D2) st =
      SEv.removeManifest b d ::
        (A.flatMap (fun x => cellS st x b d) ++
          ((if "push" ∈ st then [SEv.pushStage b d] else []) ++
            (D2.flatMap (fun dd => blockS st A b dd) ++
              B2.flatMap (fun bb => (d :: D2).flatMap (fun dd => blockS st A bb dd))))) := by
  unfold buildAllS
  rw [List.flatMap_cons, List.flatMap_cons, blockS_cons_rm hbi A b d]
  simp [List.append_assoc]

/-- With build_image requested, the very first performed event of the
run is already a subprocess: the best-effort manifest removal of the
first (branch, date). -/
theorem main_first_event_rm {st : List String} (A : List String) (b d : String)
    (B2 D2 : List String) (mpd r o n : String) (pk : List String)
    (hbi : "build_image" ∈ st) :
    ∃ T, (main A (b :: B2) (some (d :: D2)) mpd r o n st pk).1 =
      Ev.run { argv := ["buildah", "manifest", "rm", manifestName (repoOf r o) n b d],
               check := false, devnull := true } :: T := by
  unfold main build_all
  show ∃ T, (seq (seqList (List.map (stageDenote (repoOf r o) n mpd pk)
      (buildAllS A (b :: B2) (d :: D2) st)))
    (if "clean" ∈ st then clean else pureT)).1 = _ :: T
  rw [buildAllS_cons_rm hbi A b d B2 D2, List.map_cons]
  exact seq_fst_head _ rfl

/-- A first-cell configuration error (malformed date or unmapped
architecture) is fatal whenever a stage that parses it is requested. -/
theorem config_error_fatal {st : List String} (a b d : String) (A2 B2 D2 : List String)
    (mpd r o n : String) (pk : List String)
    (herr : apt_date d = none ∨ ARCH_MAP a = none)
    (hstage : "build_tarball" ∈ st ∨ "build_image" ∈ st ∨ "test" ∈ st) :
    (main (a :: A2) (b :: B2) (some (d :: D2)) mpd r o n st pk).2.isSome := by
  unfold main
  apply seq_isSome_left
  unfold build_all
  rcases hstage with hs | hs | hs
  · refine seqList_isSome_of_mem (List.mem_map_of_mem _
      (mem_buildAllS.mpr ⟨b, List.mem_cons_self _ _, d, List.mem_cons_self _ _,
        mem_blockS.mpr (Or.inr (Or.inl ⟨a, List.mem_cons_self _ _,
          mem_cellS.mpr (Or.inl ⟨hs, rfl⟩)⟩))⟩)) ?_
    exact build_tarball_isSome mpd herr
  · refine seqList_isSome_of_mem (List.mem_map_of_mem _
      (mem_buildAllS.mpr ⟨b, List.mem_cons_self _ _, d, List.mem_cons_self _ _,
        mem_blockS.mpr (Or.inr (Or.inl ⟨a, List.mem_cons_self _ _,
          mem_cellS.mpr (Or.inr (Or.inl ⟨hs, rfl⟩))⟩))⟩)) ?_
    exact buildah_build_isSome pk herr
  · refine seqList_isSome_of_mem (List.mem_map_of_mem _
      (mem_buildAllS.mpr ⟨b, List.mem_cons_self _ _, d, List.mem_cons_self _ _,
        mem_blockS.mpr (Or.inr (Or.inl ⟨a, List.mem_cons_self _ _,
          mem_cellS.mpr (Or.inr (Or.inr ⟨hs, rfl⟩))⟩))⟩)) ?_
    exact test_isSome herr

/-! ## The claims -/

/-! ### C1 -/

def c1Stages : List String := ["build_image", "push"]

def c1Trace : List Ev :=
  (main ["amd64"] ["p10"] (some ["2024-01-15"]) "mp" "registry.altlinux.org" "org" "archive"
    c1Stages []).1

def c1Commit : List String :=
  ["buildah", "commit", "--rm", "--manifest", "registry.altlinux.org/org/archive:p10-2024-01-15",
   "archive-docker-amd64", "registry.altlinux.org/org/archive:p10-2024-01-15-amd64"]

def c1Push : Cmd :=
  { argv := ["podman", "manifest", "push", "registry.altlinux.org/org/archive:p10-2024-01-15",
             "docker://registry.altlinux.org/org/archive:p10-2024-01-15"] }

/-- Exit statuses where the buildah commit of the only cell fails and
every other command succeeds. -/
def c1Env : List String → Nat := fun a => if a = c1Commit then 1 else 0

/-- C1: the claim does not hold on the code.  In the run with stages
build_image and push on the single cell (amd64, p10, 2024-01-15), the
buildah commit command is issued, its exit status 1 is not checked
(check=True is absent from every subprocess.run call of buildah_build and
podman_push), execution continues to the end, the podman manifest push is
still performed, and the process finishes without an exception. -/
theorem buildah_commit_failure_not_propagated :
    c1Env c1Commit = 1 ∧
    Ev.run { argv := c1Commit } ∈ c1Trace ∧
    execCmds c1Env c1Trace = (c1Trace, true) ∧
    Ev.run c1Push ∈ c1Trace ∧
    (main ["amd64"] ["p10"] (some ["2024-01-15"]) "mp" "registry.altlinux.org" "org" "archive"
      c1Stages []).2 = none := by
  decide

/-! ### C2 -/

/-- C2: for an architecture of the static table, a branch of the closed
branch set and a date accepted by the ISO parser, the generated source
list is exactly two newline-terminated lines, the first of the form
rpm repo/branch/date/Y/M/D archid classic and the second the same with
noarch, both containing the branch and the reformatted date and the
first containing the mapped architecture id. -/
theorem source_list_two_lines {arch branch date aid fdate : String}
    (hb : branch ∈ allBranches) (hA : ARCH_MAP arch = some aid)
    (hD : apt_date date = some fdate) :
    generate_source_list arch branch date =
      Except.ok (srcLine branch fdate aid ++ "\n" ++ srcLine branch fdate "noarch" ++ "\n") ∧
    noNL (srcLine branch fdate aid) ∧ noNL (srcLine branch fdate "noarch") ∧
    SubstrOf branch (srcLine branch fdate aid) ∧ SubstrOf branch (srcLine branch fdate "noarch") ∧
    SubstrOf fdate (srcLine branch fdate aid) ∧ SubstrOf fdate (srcLine branch fdate "noarch") ∧
    SubstrOf aid (srcLine branch fdate aid) := by
  refine ⟨?_, ?_, ?_, srcLine_has_branch branch fdate aid, srcLine_has_branch branch fdate "noarch",
    srcLine_has_fdate branch fdate aid, srcLine_has_fdate branch fdate "noarch",
    srcLine_has_aid branch fdate aid⟩
  · unfold generate_source_list
    rw [hD, hA]
  · exact srcLine_noNL (branch_noNL hb) (apt_date_noNL hD) (arch_map_noNL hA)
  · exact srcLine_noNL (branch_noNL hb) (apt_date_noNL hD) (by unfold noNL; decide)

/-- C2 witness at (amd64, p10, 2024-01-15). -/
theorem source_list_two_lines_witness :
    ("p10" ∈ allBranches ∧ ARCH_MAP "amd64" = some "x86_64" ∧
      apt_date "2024-01-15" = some "2024/01/15") ∧
    (generate_source_list "amd64" "p10" "2024-01-15" =
      Except.ok (srcLine "p10" "2024/01/15" "x86_64" ++ "\n" ++
        srcLine "p10" "2024/01/15" "noarch" ++ "\n") ∧
      noNL (srcLine "p10" "2024/01/15" "x86_64") ∧ noNL (srcLine "p10" "2024/01/15" "noarch") ∧
      SubstrOf "p10" (srcLine "p10" "2024/01/15" "x86_64") ∧
      SubstrOf "p10" (srcLine "p10" "2024/01/15" "noarch") ∧
      SubstrOf "2024/01/15" (srcLine "p10" "2024/01/15" "x86_64") ∧
      SubstrOf "2024/01/15" (srcLine "p10" "2024/01/15" "noarch") ∧
      SubstrOf "x86_64" (srcLine "p10" "2024/01/15" "x86_64")) :=
  ⟨⟨by decide, by decide, by decide⟩,
    source_list_two_lines (by decide) (by decide) (by decide)⟩

/-! ### C3 -/

/-- C3: the run is a function of stage membership only (any supply order
gives the same trace, at the stage level and at the command level); in
every cell build_tarball precedes build_image precedes test; every cell
event of a (branch, date) precedes its push, which occurs exactly once
per (branch, date) when requested and never otherwise; and clean, when
requested, occurs exactly once, as the final event of the whole run. -/
theorem stage_order_fixed (st : List String) {A B D : List String}
    (mpd r o n : String) (pk : List String)
    (hA : A.Nodup) (hB : B.Nodup) (hD : D.Nodup)
    {a b d : String} (ha : a ∈ A) (hb : b ∈ B) (hd : d ∈ D) :
    (∀ st2, (∀ s, s ∈ st ↔ s ∈ st2) →
      mainS A B D st = mainS A B D st2 ∧
      main A B (some D) mpd r o n st pk = main A B (some D) mpd r o n st2 pk) ∧
    Before (SEv.buildTarball a b d) (SEv.buildImage a b d) (mainS A B D st) ∧
    Before (SEv.buildImage a b d) (SEv.testStage a b d) (mainS A B D st) ∧
    Before (SEv.buildTarball a b d) (SEv.testStage a b d) (mainS A B D st) ∧
    (∀ y, Before (SEv.buildTarball y b d) (SEv.pushStage b d) (mainS A B D st) ∧
          Before (SEv.buildImage y b d) (SEv.pushStage b d) (mainS A B D st) ∧
          Before (SEv.testStage y b d) (SEv.pushStage b d) (mainS A B D st)) ∧
    ("push" ∈ st → (mainS A B D st).count (SEv.pushStage b d) = 1) ∧
    ("push" ∉ st → ∀ b2 d2, SEv.pushStage b2 d2 ∉ mainS A B D st) ∧
    ("clean" ∈ st → (mainS A B D st).count SEv.cleanStage = 1 ∧
      ∀ i, (mainS A B D st).get? i = some SEv.cleanStage → i + 1 = (mainS A B D st).length) ∧
    ("clean" ∉ st → SEv.cleanStage ∉ mainS A B D st) := by
  refine ⟨?_, cell_order_bt_bi st hA hB hD ha hb hd, cell_order_bi_ts st hA hB hD ha hb hd,
    cell_order_bt_ts st hA hB hD ha hb hd, ?_, push_count st A hB hD hb hd, ?_, ?_,
    clean_not_mem A B D⟩
  · intro st2 h
    exact ⟨mainS_congr A B D h, main_congr A B (some D) mpd r o n pk h⟩
  · intro y
    exact ⟨cell_before_push st A hB hD hb hd _ ⟨y, Or.inl rfl⟩,
      cell_before_push st A hB hD hb hd _ ⟨y, Or.inr (Or.inl rfl)⟩,
      cell_before_push st A hB hD hb hd _ ⟨y, Or.inr (Or.inr rfl)⟩⟩
  · intro hp b2 d2
    exact push_not_mem A B D hp b2 d2
  · intro hc
    exact ⟨clean_count A B D hc, clean_last A B D hc⟩

/-- C3 witness: the single cell (amd64, p10, 2024-01-15) with all five
stages supplied in scrambled order. -/
theorem stage_order_fixed_witness :
    ((["amd64"] : List String).Nodup ∧ (["p10"] : List String).Nodup ∧
      (["2024-01-15"] : List String).Nodup ∧
      "amd64" ∈ (["amd64"] : List String) ∧ "p10" ∈ (["p10"] : List String) ∧
      "2024-01-15" ∈ (["2024-01-15"] : List String)) ∧
    mainS ["amd64"] ["p10"] ["2024-01-15"] ["push", "clean", "test", "build_image", "build_tarball"] =
      mainS ["amd64"] ["p10"] ["2024-01-15"] allStages ∧
    Before (SEv.buildTarball "amd64" "p10" "2024-01-15") (SEv.buildImage "amd64" "p10" "2024-01-15")
      (mainS ["amd64"] ["p10"] ["2024-01-15"]
        ["push", "clean", "test", "build_image", "build_tarball"]) ∧
    (mainS ["amd64"] ["p10"] ["2024-01-15"]
        ["push", "clean", "test", "build_image", "build_tarball"]).count
      (SEv.pushStage "p10" "2024-01-15") = 1 ∧
    (mainS ["amd64"] ["p10"] ["2024-01-15"]
        ["push", "clean", "test", "build_image", "build_tarball"]).count SEv.cleanStage = 1 :=
  ⟨⟨by decide, by decide, by decide, by decide, by decide, by decide⟩,
    ((stage_order_fixed ["push", "clean", "test", "build_image", "build_tarball"]
      "mp" "registry.altlinux.org" "org" "archive" []
      (by decide) (by decide) (by decide)
      (by decide : ("amd64" : String) ∈ ["amd64"])
      (by decide : ("p10" : String) ∈ ["p10"])
      (by decide : ("2024-01-15" : String) ∈ ["2024-01-15"])).1
      allStages (by
        intro s
        unfold allStages
        simp only [List.mem_cons, List.mem_singleton, List.not_mem_nil, or_false]
        tauto)).1,
    (stage_order_fixed ["push", "clean", "test", "build_image", "build_tarball"]
      "mp" "registry.altlinux.org" "org" "archive" []
      (by decide) (by decide) (by decide)
      (by decide : ("amd64" : String) ∈ ["amd64"])
      (by decide : ("p10" : String) ∈ ["p10"])
      (by decide : ("2024-01-15" : String) ∈ ["2024-01-15"])).2.1,
    (stage_order_fixed ["push", "clean", "test", "build_image", "build_tarball"]
      "mp" "registry.altlinux.org" "org" "archive" []
      (by decide) (by decide) (by decide)
      (by decide : ("amd64" : String) ∈ ["amd64"])
      (by decide : ("p10" : String) ∈ ["p10"])
      (by decide : ("2024-01-15" : String) ∈ ["2024-01-15"])).2.2.2.2.2.1
      (by decide),
    ((stage_order_fixed ["push", "clean", "test", "build_image", "build_tarball"]
      "mp" "registry.altlinux.org" "org" "archive" []
      (by decide) (by decide) (by decide)
      (by decide : ("amd64" : String) ∈ ["amd64"])
      (by decide : ("p10" : String) ∈ ["p10"])
      (by decide : ("2024-01-15" : String) ∈ ["2024-01-15"])).2.2.2.2.2.2.2.1
      (by decide)).1⟩

/-! ### C4 -/

/-- C4: with build_image requested, the manifest removal event of a
(branch, date) of the matrix is present and precedes every cell event of
that pair; without build_image no manifest removal happens at all; and
the removal itself is a single check-free buildah call with suppressed
output. -/
theorem manifest_reset_before_cells (st A : List String) {B D : List String}
    (hB : B.Nodup) (hD : D.Nodup) {b d : String} (hb : b ∈ B) (hd : d ∈ D) :
    ("build_image" ∈ st → SEv.removeManifest b d ∈ mainS A B D st) ∧
    ("build_image" ∉ st → ∀ b2 d2, SEv.removeManifest b2 d2 ∉ mainS A B D st) ∧
    (∀ y, Before (SEv.removeManifest b d) (SEv.buildTarball y b d) (mainS A B D st) ∧
          Before (SEv.removeManifest b d) (SEv.buildImage y b d) (mainS A B D st) ∧
          Before (SEv.removeManifest b d) (SEv.testStage y b d) (mainS A B D st)) ∧
    (∀ m, remove_manifest m =
      ([Ev.run { argv := ["buildah", "manifest", "rm", m], check := false, devnull := true }],
        none)) := by
  refine ⟨rm_mem st A hb hd, ?_, ?_, fun m => rfl⟩
  · intro hbi b2 d2
    exact rm_not_mem A B D hbi b2 d2
  · intro y
    exact ⟨rm_before_cell st A hB hD hb hd _ ⟨y, Or.inl rfl⟩,
      rm_before_cell st A hB hD hb hd _ ⟨y, Or.inr (Or.inl rfl)⟩,
      rm_before_cell st A hB hD hb hd _ ⟨y, Or.inr (Or.inr rfl)⟩⟩

/-- C4 witness on the cell (amd64, p10, 2024-01-15) with build_image
requested. -/
theorem manifest_reset_before_cells_witness :
    ((["p10"] : List String).Nodup ∧ (["2024-01-15"] : List String).Nodup ∧
      "p10" ∈ (["p10"] : List String) ∧ "2024-01-15" ∈ (["2024-01-15"] : List String) ∧
      "build_image" ∈ (["build_image", "test"] : List String)) ∧
    SEv.removeManifest "p10" "2024-01-15" ∈
      mainS ["amd64"] ["p10"] ["2024-01-15"] ["build_image", "test"] ∧
    Before (SEv.removeManifest "p10" "2024-01-15") (SEv.buildImage "amd64" "p10" "2024-01-15")
      (mainS ["amd64"] ["p10"] ["2024-01-15"] ["build_image", "test"]) :=
  ⟨⟨by decide, by decide, by decide, by decide, by decide⟩,
    (manifest_reset_before_cells ["build_image", "test"] ["amd64"]
      (by decide) (by decide)
      (by decide : ("p10" : String) ∈ ["p10"])
      (by decide : ("2024-01-15" : String) ∈ ["2024-01-15"])).1 (by decide),
    ((manifest_reset_before_cells ["build_image", "test"] ["amd64"]
      (by decide) (by decide)
      (by decide : ("p10" : String) ∈ ["p10"])
      (by decide : ("2024-01-15" : String) ∈ ["2024-01-15"])).2.2.1 "amd64").2.1⟩

/-! ### C5 -/

/-- C5: for every selection and skip lists accepted by the argparse
choices (including skip lists that are not subsets of the selection),
membership in the effective set computed by parse_args is exactly
membership in the selection minus the skip list, for architectures,
branches and stages alike. -/
theorem skip_sets_subtracted
    {arches skipArches branches skipBranches stages skipStages : List String}
    (_hacc : acceptedArgs arches skipArches branches skipBranches stages skipStages) :
    (∀ x, x ∈ setDiff arches skipArches ↔ x ∈ arches ∧ x ∉ skipArches) ∧
    (∀ x, x ∈ setDiff branches skipBranches ↔ x ∈ branches ∧ x ∉ skipBranches) ∧
    (∀ x, x ∈ setDiff stages skipStages ↔ x ∈ stages ∧ x ∉ skipStages) := by
  refine ⟨?_, ?_, ?_⟩ <;> intro x <;> simp [setDiff]

/-- C5 witness: skip lists that are not subsets of the selections. -/
theorem skip_sets_subtracted_witness :
    acceptedArgs ["amd64"] ["arm64", "386"] ["p10"] ["amd64"] ["build_tarball", "test"]
      ["push", "test"] ∧
    (∀ x, x ∈ setDiff ["amd64"] ["arm64", "386"] ↔
      x ∈ (["amd64"] : List String) ∧ x ∉ (["arm64", "386"] : List String)) ∧
    (∀ x, x ∈ setDiff ["p10"] ["amd64"] ↔
      x ∈ (["p10"] : List String) ∧ x ∉ (["amd64"] : List String)) ∧
    (∀ x, x ∈ setDiff ["build_tarball", "test"] ["push", "test"] ↔
      x ∈ (["build_tarball", "test"] : List String) ∧ x ∉ (["push", "test"] : List String)) :=
  ⟨by refine ⟨?_, ?_, ?_, ?_, ?_, ?_⟩ <;> decide,
    skip_sets_subtracted (by refine ⟨?_, ?_, ?_, ?_, ?_, ?_⟩ <;> decide)⟩

/-! ### C6 -/

/-- C6: the test stage issues exactly four podman run invocations, in
order: grep for the branch, grep for the mapped architecture id, grep for
the reformatted date, then the apt-get update and install of ncdu; each
carries check=True, and a nonzero exit status of any of them fails the
execution of any event list containing them. -/
theorem test_stage_four_checks {arch date : String} (branch image : String) {aid fdate : String}
    (hA : ARCH_MAP arch = some aid) (hD : apt_date date = some fdate) :
    test arch branch date image =
      ([Ev.run { argv := ["podman", "run", "--rm", image, "grep", "-q", branch,
            "/etc/apt/sources.list.d/alt.list"], check := true },
        Ev.run { argv := ["podman", "run", "--rm", image, "grep", "-q", aid,
            "/etc/apt/sources.list.d/alt.list"], check := true },
        Ev.run { argv := ["podman", "run", "--rm", image, "grep", "-q", fdate,
            "/etc/apt/sources.list.d/alt.list"], check := true },
        Ev.run { argv := ["podman", "run", "--rm", image, "sh", "-c",
            "apt-get update && apt-get install -y ncdu"], check := true }], none) ∧
    (∀ env : List String → Nat, ∀ i : Nat, ∀ c : Cmd,
      (test arch branch date image).1.get? i = some (Ev.run c) → env c.argv ≠ 0 →
      (execCmds env (test arch branch date image).1).2 = false) := by
  have h1 : test arch branch date image =
      ([Ev.run { argv := ["podman", "run", "--rm", image, "grep", "-q", branch,
            "/etc/apt/sources.list.d/alt.list"], check := true },
        Ev.run { argv := ["podman", "run", "--rm", image, "grep", "-q", aid,
            "/etc/apt/sources.list.d/alt.list"], check := true },
        Ev.run { argv := ["podman", "run", "--rm", image, "grep", "-q", fdate,
            "/etc/apt/sources.list.d/alt.list"], check := true },
        Ev.run { argv := ["podman", "run", "--rm", image, "sh", "-c",
            "apt-get update && apt-get install -y ncdu"], check := true }], none) := by
    unfold test
    rw [hA, hD]
    rfl
  refine ⟨h1, ?_⟩
  intro env i c hget henv
  have hc : Ev.run c ∈ (test arch branch date image).1 := List.get?_mem hget
  rw [h1] at hc
  simp only [List.mem_cons, List.not_mem_nil, or_false] at hc
  rcases hc with hc | hc | hc | hc <;>
    (injection hc with hc; subst hc;
     exact execCmds_false_of_failing env (by rw [h1]; simp) rfl henv)

/-- C6 witness at (amd64, p10, 2024-01-15): the four checks, and failure
of the execution when the metadata-refresh check exits nonzero. -/
theorem test_stage_four_checks_witness :
    (ARCH_MAP "amd64" = some "x86_64" ∧ apt_date "2024-01-15" = some "2024/01/15") ∧
    test "amd64" "p10" "2024-01-15" "img" =
      ([Ev.run { argv := ["podman", "run", "--rm", "img", "grep", "-q", "p10",
            "/etc/apt/sources.list.d/alt.list"], check := true },
        Ev.run { argv := ["podman", "run", "--rm", "img", "grep", "-q", "x86_64",
            "/etc/apt/sources.list.d/alt.list"], check := true },
        Ev.run { argv := ["podman", "run", "--rm", "img", "grep", "-q", "2024/01/15",
            "/etc/apt/sources.list.d/alt.list"], check := true },
        Ev.run { argv := ["podman", "run", "--rm", "img", "sh", "-c",
            "apt-get update && apt-get install -y ncdu"], check := true }], none) ∧
    (execCmds (fun a => if a = ["podman", "run", "--rm", "img", "sh", "-c",
        "apt-get update && apt-get install -y ncdu"] then 1 else 0)
      (test "amd64" "p10" "2024-01-15" "img").1).2 = false :=
  ⟨⟨by decide, by decide⟩,
    (test_stage_four_checks "p10" "img"
      (by decide : ARCH_MAP "amd64" = some "x86_64")
      (by decide : apt_date "2024-01-15" = some "2024/01/15")).1,
    (test_stage_four_checks "p10" "img"
      (by decide : ARCH_MAP "amd64" = some "x86_64")
      (by decide : apt_date "2024-01-15" = some "2024/01/15")).2
      (fun a => if a = ["podman", "run", "--rm", "img", "sh", "-c",
        "apt-get update && apt-get install -y ncdu"] then 1 else 0)
      3
      { argv := ["podman", "run", "--rm", "img", "sh", "-c",
          "apt-get update && apt-get install -y ncdu"], check := true }
      (by decide) (by decide)⟩

/-! ### C7 -/

/-- C7 counterexample: with stages limited to build_image and the
malformed date "bogus", the run does abort with the ValueError, but only
after subprocess invocations have been made (here, the best-effort image
removal of the first cell, followed by further buildah calls), so a
configuration error is not always fatal before any external call. -/
theorem config_error_after_subprocesses :
    Ev.run { argv := ["buildah", "image", "rm", "reg/org/archive:p10-bogus-amd64"],
             check := false, devnull := true }
      ∈ (main ["amd64"] ["p10"] (some ["bogus"]) "mp" "reg" "org" "archive" ["build_image"] []).1 ∧
    (main ["amd64"] ["p10"] (some ["bogus"]) "mp" "reg" "org" "archive" ["build_image"] []).2 =
      some (Err.valueError "bogus") := by
  decide

/-- C7 (amended): every configuration error is fatal when the code
reaches it, but not always before an external tool call.  A missing
dates argument raises TypeError before any event whenever the branch set
is non-empty; a malformed date or unmapped architecture of the first
cell aborts the run whenever build_tarball, build_image or test is
requested.  When build_image is not requested, the abort precedes every
subprocess: with build_tarball requested the whole run is the single
apt.conf write followed by the error, and with only test requested the
run is the error with no event at all, for either error kind.  When
build_image is requested, the first performed event of the run is
already a subprocess, the best-effort manifest removal. -/
theorem config_error_behaviour {st : List String} (a b d : String) (A2 B2 D2 : List String)
    (mpd r o n : String) (pk : List String) :
    (∀ A : List String, main A (b :: B2) none mpd r o n st pk = ([], some Err.typeError)) ∧
    ((apt_date d = none ∨ ARCH_MAP a = none) →
      ("build_tarball" ∈ st ∨ "build_image" ∈ st ∨ "test" ∈ st) →
      (main (a :: A2) (b :: B2) (some (d :: D2)) mpd r o n st pk).2.isSome) ∧
    (∀ e, generate_source_list a b d = Except.error e →
      "build_tarball" ∈ st → "build_image" ∉ st →
      main (a :: A2) (b :: B2) (some (d :: D2)) mpd r o n st pk =
        ([Ev.write APT_CONF aptConfText], some e)) ∧
    (∀ aid, ARCH_MAP a = some aid → apt_date d = none →
      "build_tarball" ∉ st → "build_image" ∉ st → "test" ∈ st →
      main (a :: A2) (b :: B2) (some (d :: D2)) mpd r o n st pk =
        ([], some (Err.valueError d))) ∧
    (ARCH_MAP a = none → "build_tarball" ∉ st → "build_image" ∉ st → "test" ∈ st →
      main (a :: A2) (b :: B2) (some (d :: D2)) mpd r o n st pk =
        ([], some (Err.keyError a))) ∧
    ("build_image" ∈ st →
      ∃ T, (main (a :: A2) (b :: B2) (some (d :: D2)) mpd r o n st pk).1 =
        Ev.run { argv := ["buildah", "manifest", "rm", manifestName (repoOf r o) n b d],
                 check := false, devnull := true } :: T) := by
  refine ⟨fun A => rfl, ?_, ?_, ?_, ?_, ?_⟩
  · intro herr hstage
    exact config_error_fatal a b d A2 B2 D2 mpd r o n pk herr hstage
  · intro e hgsl hbt hbi
    exact main_bt_first_trace a b A2 B2 D2 mpd r o n pk hgsl hbt hbi
  · intro aid hA hD hbt hbi hts
    exact main_test_first_of A2 B2 D2 mpd r o n pk hbt hbi hts
      (test_err_val b (imageName (repoOf r o) n b d a) hA hD)
  · intro hA hbt hbi hts
    exact main_test_first_of A2 B2 D2 mpd r o n pk hbt hbi hts
      (test_err_key b d (imageName (repoOf r o) n b d a) hA)
  · intro hbi
    exact main_first_event_rm (a :: A2) b d B2 D2 mpd r o n pk hbi

/-- C7 witness: the missing-dates abort; the exact one-write trace under
stages build_tarball only; the exact empty trace under stages test only,
for a malformed date and for an unmapped architecture; the fatality and
the subprocess-first event under stages build_image only. -/
theorem config_error_behaviour_witness :
    main ["amd64"] ["p10"] none "mp" "reg" "org" "archive" ["build_tarball"] [] =
      ([], some Err.typeError) ∧
    (apt_date "bogus" = none ∧ ARCH_MAP "amd64" = some "x86_64" ∧ ARCH_MAP "weird" = none ∧
      generate_source_list "amd64" "p10" "bogus" = Except.error (Err.valueError "bogus")) ∧
    main ["amd64"] ["p10"] (some ["bogus"]) "mp" "reg" "org" "archive" ["build_tarball"] [] =
      ([Ev.write APT_CONF aptConfText], some (Err.valueError "bogus")) ∧
    main ["amd64"] ["p10"] (some ["bogus"]) "mp" "reg" "org" "archive" ["test"] [] =
      ([], some (Err.valueError "bogus")) ∧
    main ["weird"] ["p10"] (some ["2024-01-15"]) "mp" "reg" "org" "archive" ["test"] [] =
      ([], some (Err.keyError "weird")) ∧
    (main ["amd64"] ["p10"] (some ["bogus"]) "mp" "reg" "org" "archive" ["build_image"] []).2.isSome ∧
    (∃ T, (main ["amd64"] ["p10"] (some ["bogus"]) "mp" "reg" "org" "archive" ["build_image"] []).1 =
      Ev.run { argv := ["buildah", "manifest", "rm", manifestName (repoOf "reg" "org") "archive" "p10" "bogus"],
               check := false, devnull := true } :: T) :=
  ⟨(config_error_behaviour "amd64" "p10" "bogus" [] [] [] "mp" "reg" "org" "archive" []).1 ["amd64"],
    ⟨by decide, by decide, by decide, rfl⟩,
    (config_error_behaviour "amd64" "p10" "bogus" [] [] [] "mp" "reg" "org" "archive" []).2.2.1
      (Err.valueError "bogus") rfl (by decide) (by decide),
    (config_error_behaviour "amd64" "p10" "bogus" [] [] [] "mp" "reg" "org" "archive" []).2.2.2.1
      "x86_64" (by decide) (by decide) (by decide) (by decide) (by decide),
    (config_error_behaviour "weird" "p10" "2024-01-15" [] [] [] "mp" "reg" "org" "archive" []).2.2.2.2.1
      (by decide) (by decide) (by decide) (by decide),
    (config_error_behaviour "amd64" "p10" "bogus" [] [] [] "mp" "reg" "org" "archive" []).2.1
      (Or.inl (by decide)) (Or.inr (Or.inl (by decide))),
    (config_error_behaviour "amd64" "p10" "bogus" [] [] [] "mp" "reg" "org" "archive" []).2.2.2.2.2
      (by decide)⟩

/-! ### C8 -/

/-- C8 counterexample: the resolver does raise on a date string that is
not ISO-8601, even with the architecture in the table, so being in the
table is not the only failure mode. -/
theorem source_list_raises_on_bad_date :
    generate_source_list "amd64" "p10" "bogus" = Except.error (Err.valueError "bogus") := rfl

/-- C8 (amended): the resolver is a pure total function whose only
failure modes are an architecture outside the static table and a
malformed date: with the architecture mapped and the date parsed it
returns the source text and cannot return an error. -/
theorem source_list_total_on_valid_inputs {arch date : String} (branch : String)
    {aid fdate : String} (hA : ARCH_MAP arch = some aid) (hD : apt_date date = some fdate) :
    generate_source_list arch branch date =
      Except.ok (srcLine branch fdate aid ++ "\n" ++ srcLine branch fdate "noarch" ++ "\n") ∧
    ∀ e, generate_source_list arch branch date ≠ Except.error e := by
  have h1 : generate_source_list arch branch date =
      Except.ok (srcLine branch fdate aid ++ "\n" ++ srcLine branch fdate "noarch" ++ "\n") := by
    unfold generate_source_list
    rw [hD, hA]
  refine ⟨h1, ?_⟩
  intro e h2
  rw [h1] at h2
  cases h2

/-- C8 witness at (amd64, p10, 2024-01-15). -/
theorem source_list_total_on_valid_inputs_witness :
    (ARCH_MAP "amd64" = some "x86_64" ∧ apt_date "2024-01-15" = some "2024/01/15") ∧
    generate_source_list "amd64" "p10" "2024-01-15" =
      Except.ok (srcLine "p10" "2024/01/15" "x86_64" ++ "\n" ++
        srcLine "p10" "2024/01/15" "noarch" ++ "\n") ∧
    (∀ e, generate_source_list "amd64" "p10" "2024-01-15" ≠ Except.error e) :=
  ⟨⟨by decide, by decide⟩,
    source_list_total_on_valid_inputs "p10"
      (by decide : ARCH_MAP "amd64" = some "x86_64")
      (by decide : apt_date "2024-01-15" = some "2024/01/15")⟩

/-! ### C9 -/

/-- C9: the three best-effort removal helpers each issue exactly one
buildah command with check absent (False) and both output streams sent
to the null device, raise nothing themselves, and under every possible
exit status the execution continues past them unchanged. -/
theorem best_effort_removals_suppress_failures (m : String) (env : List String → Nat)
    (rest : List Ev) :
    remove_manifest m =
      ([Ev.run { argv := ["buildah", "manifest", "rm", m], check := false, devnull := true }],
        none) ∧
    remove_image m =
      ([Ev.run { argv := ["buildah", "image", "rm", m], check := false, devnull := true }],
        none) ∧
    remove_container m =
      ([Ev.run { argv := ["buildah", "rm", m], check := false, devnull := true }], none) ∧
    execCmds env ((remove_manifest m).1 ++ rest) =
      (Ev.run { argv := ["buildah", "manifest", "rm", m], check := false, devnull := true } ::
        (execCmds env rest).1, (execCmds env rest).2) ∧
    execCmds env ((remove_image m).1 ++ rest) =
      (Ev.run { argv := ["buildah", "image", "rm", m], check := false, devnull := true } ::
        (execCmds env rest).1, (execCmds env rest).2) ∧
    execCmds env ((remove_container m).1 ++ rest) =
      (Ev.run { argv := ["buildah", "rm", m], check := false, devnull := true } ::
        (execCmds env rest).1, (execCmds env rest).2) :=
  ⟨rfl, rfl, rfl,
    execCmds_cons_unchecked env rest rfl,
    execCmds_cons_unchecked env rest rfl,
    execCmds_cons_unchecked env rest rfl⟩

/-! ### C10 -/

/-- C10: when none of build_tarball, build_image, test and push is in
the stage set, the whole run writes no file, creates no directory and
invokes no subprocess except the single podman system prune when clean
is requested; without clean it does nothing at all. -/
theorem no_core_stages_no_effects (A B D : List String) (mpd r o n : String)
    {st : List String} (pk : List String)
    (h1 : "build_tarball" ∉ st) (h2 : "build_image" ∉ st)
    (h3 : "test" ∉ st) (h4 : "push" ∉ st) :
    main A B (some D) mpd r o n st pk = (if "clean" ∈ st then clean else pureT) ∧
    clean = ([Ev.run { argv := ["podman", "system", "prune", "-af"] }], none) ∧
    pureT = ([], none) := by
  refine ⟨?_, rfl, rfl⟩
  unfold main build_all
  show seq (seqList (List.map (stageDenote (repoOf r o) n mpd pk) (buildAllS A B D st)))
    (if "clean" ∈ st then clean else pureT) = _
  rw [buildAllS_nil A B D h1 h2 h3 h4]
  exact seq_pure_left _

/-- C10 witness: a two-cell matrix with stages clean only. -/
theorem no_core_stages_no_effects_witness :
    ("build_tarball" ∉ (["clean"] : List String) ∧ "build_image" ∉ (["clean"] : List String) ∧
      "test" ∉ (["clean"] : List String) ∧ "push" ∉ (["clean"] : List String)) ∧
    main ["amd64", "arm64"] ["p10"] (some ["2024-01-15"]) "mp" "reg" "org" "archive" ["clean"] [] =
      (if "clean" ∈ (["clean"] : List String) then clean else pureT) :=
  ⟨⟨by decide, by decide, by decide, by decide⟩,
    (no_core_stages_no_effects ["amd64", "arm64"] ["p10"] ["2024-01-15"] "mp" "reg" "org" "archive"
      [] (by decide) (by decide) (by decide) (by decide)).1⟩

end ArchiveDocker
